import Mathlib

/-!
Verification development for the `minecraft-world-statistics` repository.

The development shallowly embeds the three source files:

* `src/region.rs` — the region-container reader (`RegionFile::new`,
  `RegionFile::for_each_chunk`, `read_chunk`, `ChunkError`);
* `src/bin/dump-items.rs` — the scan pipeline's per-chunk extraction logic,
  the per-region-file scan driver and its radius filter;
* `src/bin/count-items.rs` — the per-line item counting, including the
  shulker-box special case.

Machine integers (`u32`, `u8`, `usize`) are modelled as `Nat`.  The sector
arithmetic in `for_each_chunk` is `u32` arithmetic whose subtractions never
underflow on a well-formed sector table (sorted non-overlapping ranges);
`Nat` truncated subtraction is used, which agrees with the Rust code on all
inputs considered here.  A file is a `List Nat` of bytes; `Seek::seek` with a
forward relative offset and `Read::take(n).read_to_end` (which reads at most
`n` bytes and does not fail at end of file) are modelled positionally.
Rust panics (`unwrap`, slice-indexing out of bounds, `panic!`) are modelled
as `Option.none` / dedicated error constructors.  The stable sort
`sort_by_key` is modelled by `List.insertionSort`, also a stable sort; only
sortedness and permutation facts about it are used.
-/

set_option maxRecDepth 200000

/-- Sector start of a packed 32-bit sector-table entry: `offsets[i] >> 8`. -/
def sectorStart (e : Nat) : Nat := e / 256

/-- Sector count of a packed sector-table entry: `offsets[i] & 0xff`. -/
def sectorCount (e : Nat) : Nat := e % 256

/-- One-past-the-end sector of a packed entry: `(e >> 8) + (e & 0xff)`. -/
def sectorEnd (e : Nat) : Nat := e / 256 + e % 256

/-- The `(slot index, packed entry)` pairs of the sector table, sorted by
packed entry value.  This models the prologue of `for_each_chunk`:
`indices.sort_by_key(|&i| offsets[i]); offsets.sort();` — after the two
stable sorts, position `k` holds the pair `(indices[k], offsets[k])`. -/
def sortedEntries (offsets : List Nat) : List (Nat × Nat) :=
  List.insertionSort (fun a b => a.2 ≤ b.2) offsets.enum

/-- The inner `while j < 1024` loop of `for_each_chunk`: starting from a run
whose first slot begins at sector `start` and whose last accepted slot ends at
sector `prev`, keep accepting slots while
`(sector_count + empty) ≤ cap`, where `sector_count` is the span from `start`
to the candidate's end sector and `empty` is the gap between the previous
slot's end and the candidate's start.  Returns the accepted slots and the
remaining ones. -/
def extendRun (cap start : Nat) : Nat → List (Nat × Nat) → List (Nat × Nat) × List (Nat × Nat)
  | _, [] => ([], [])
  | prev, p :: rest =>
    if (sectorEnd p.2 - start) + (sectorStart p.2 - prev) > cap then ([], p :: rest)
    else
      let res := extendRun cap start (sectorEnd p.2) rest
      (p :: res.1, res.2)

/-- Fuelled form of the outer `while i < 1024` loop of `for_each_chunk`:
slots with a zero packed entry are skipped, every other slot starts a run
that is maximally extended by `extendRun`.  The fuel only serves termination;
`buildRuns` instantiates it with the list length, which is always enough. -/
def buildRunsF (cap : Nat) : Nat → List (Nat × Nat) → List (List (Nat × Nat))
  | 0, _ => []
  | _, [] => []
  | fuel + 1, p :: rest =>
    if p.2 = 0 then buildRunsF cap fuel rest
    else
      let res := extendRun cap (sectorStart p.2) (sectorEnd p.2) rest
      (p :: res.1) :: buildRunsF cap fuel res.2

/-- The coalesced runs the outer loop of `for_each_chunk` forms from a sorted
entry list. -/
def buildRuns (cap : Nat) (l : List (Nat × Nat)) : List (List (Nat × Nat)) :=
  buildRunsF cap l.length l

/-- The coalesced runs `for_each_chunk` forms from a sector table.  The
source hard-codes `cap = 16`; it is kept as a parameter so that properties
can be stated for every cap value. -/
def runsOf (cap : Nat) (offsets : List Nat) : List (List (Nat × Nat)) :=
  buildRuns cap (sortedEntries offsets)

/-- Sector range `[sector_start, sector_end)` covered by one coalesced run:
`sector_start` comes from the first slot of the run, `sector_end` from its
last slot (`offsets[j - 1]`). -/
def runRange : List (Nat × Nat) → Nat × Nat
  | [] => (0, 0)
  | p :: rest => (sectorStart p.2, sectorEnd ((rest.getLastD p).2))

/-- The sector ranges of the positional reads `for_each_chunk` issues, in
issue order. -/
def readRanges (cap : Nat) (offsets : List Nat) : List (Nat × Nat) :=
  (runsOf cap offsets).map runRange

/-- The slot indices passed to the callback of `for_each_chunk`, in call
order (assuming no read error interrupts the scan). -/
def visitOrder (cap : Nat) (offsets : List Nat) : List Nat :=
  ((runsOf cap offsets).flatten).map (fun p => p.1)

/-- The indices of the non-empty slots of a sector table (slots whose packed
32-bit entry is non-zero), in slot order. -/
def nonEmptySlots (offsets : List Nat) : List Nat :=
  (offsets.enum.filter (fun p => p.2 != 0)).map (fun p => p.1)

/-- Two packed entries describe non-overlapping sector ranges. -/
def disjointRanges (a b : Nat) : Prop :=
  sectorEnd a ≤ sectorStart b ∨ sectorEnd b ≤ sectorStart a

instance : DecidableRel disjointRanges := fun a b => by
  unfold disjointRanges; infer_instance

/-- Well-formedness of a sector table: every non-empty slot has a non-zero
sector count, and the sector ranges of distinct non-empty slots do not
overlap (hence in particular are distinct). -/
def slotTableWF (offsets : List Nat) : Prop :=
  (∀ e ∈ offsets, e ≠ 0 → sectorCount e ≠ 0) ∧
  List.Pairwise disjointRanges (offsets.filter (fun e => e != 0))

instance (offsets : List Nat) : Decidable (slotTableWF offsets) := by
  unfold slotTableWF; infer_instance

/-- Condition under which the inner loop of `for_each_chunk` accepts one more
slot into the current run: the span from the run's start sector to the
candidate's end sector, plus the empty gap between the previous slot's end
and the candidate's start, must not exceed the cap
(`sector_count + empty <= 16` in the source; the loop breaks on `> 16`). -/
def extCond (cap start prevEnd e : Nat) : Prop :=
  (sectorEnd e - start) + (sectorStart e - prevEnd) ≤ cap

instance (cap start prevEnd e : Nat) : Decidable (extCond cap start prevEnd e) := by
  unfold extCond; infer_instance

/-- Every consecutive extension step inside a run satisfies `extCond`. -/
def runChainOk (cap start : Nat) : Nat → List (Nat × Nat) → Prop
  | _, [] => True
  | prevEnd, q :: rest => extCond cap start prevEnd q.2 ∧ runChainOk cap start (sectorEnd q.2) rest

/-- End sector of the last slot of a run, or `prevEnd` for an empty run. -/
def lastEndD (prevEnd : Nat) : List (Nat × Nat) → Nat
  | [] => prevEnd
  | q :: rest => sectorEnd ((rest.getLastD q).2)

/-- The greedy-run property of a run decomposition: within every run each
slot was accepted because `extCond` held, and the slot that starts the next
run was rejected from the previous run because `extCond` failed for it. -/
def greedyRuns (cap : Nat) : List (List (Nat × Nat)) → Prop
  | [] => True
  | run :: rest =>
    (match run with
     | [] => False
     | h :: t =>
       runChainOk cap (sectorStart h.2) (sectorEnd h.2) t ∧
       (match rest with
        | [] => True
        | nextRun :: _ =>
          match nextRun with
          | [] => False
          | h2 :: _ => ¬ extCond cap (sectorStart h.2) (lastEndD (sectorEnd h.2) t) h2.2)) ∧
    greedyRuns cap rest

/-- Contiguity of a slot list: each slot starts exactly where the previous
one (or the given predecessor) ends. -/
def contigFrom (prev : Nat) : List (Nat × Nat) → Prop
  | [] => True
  | q :: rest => sectorStart q.2 = prev ∧ contigFrom (sectorEnd q.2) rest

/-- Errors of the byte-level reader model.  `unexpectedEof` stands for the
`io::ErrorKind::UnexpectedEof` errors produced by `read_exact` on a short
file and by `byteorder::read_u32` on a short slice; `sliceOutOfBounds` stands for
the panic of `&buf[start..]` / `&buf[..len]` when the index exceeds the
buffer length. -/
inductive ReadError where
  | unexpectedEof
  | sliceOutOfBounds
deriving DecidableEq

/-- Reading a big-endian `u32` from the front of a byte list, as
`buf.read_u32::<BE>()` does; fails (with `UnexpectedEof`) on fewer than 4
bytes, otherwise also returning the remaining bytes. -/
def readU32BE : List Nat → Option (Nat × List Nat)
  | b0 :: b1 :: b2 :: b3 :: rest => some (((b0 * 256 + b1) * 256 + b2) * 256 + b3, rest)
  | _ => none

/-- The per-slot slicing loop `for i in i..j { ... }` of `for_each_chunk`:
for each slot of the run, take the sub-slice of the run buffer starting at
the slot's offset within the run (`&buf[start..]`, a panic if `start` is out
of bounds), read the 4-byte length prefix, and hand the callback the next
`len` bytes (`&buf[..len]`, a panic if out of bounds).  Returns the list of
`(slot index, framed bytes)` callback arguments. -/
def sliceRun (buf : List Nat) (runStart : Nat) : List (Nat × Nat) → Except ReadError (List (Nat × List Nat))
  | [] => .ok []
  | q :: rest =>
    let start := (sectorStart q.2 - runStart) * 4096
    if start ≤ buf.length then
      match readU32BE (buf.drop start) with
      | none => .error .unexpectedEof
      | some (len, after) =>
        if len ≤ after.length then
          match sliceRun buf runStart rest with
          | .error e => .error e
          | .ok more => .ok ((q.1, after.take len) :: more)
        else .error .sliceOutOfBounds
    else .error .sliceOutOfBounds

/-- The read loop of `for_each_chunk` over the coalesced runs: seek forward
from `last_sector` to the run's start (`SeekFrom::Current`, skipped when the
delta is zero), read the run's sectors with `take(len).read_to_end` (which
reads at most that many bytes and does not fail at end of file), slice the
buffer per slot, and continue with `last_sector` set to the run's end.
Returns the callback arguments (or the first error) and the final byte
position of the file cursor. -/
def runFold (data : List Nat) : List (List (Nat × Nat)) → Nat → Nat →
    Except ReadError (List (Nat × List Nat)) × Nat
  | [], _, pos => (.ok [], pos)
  | run :: rest, lastSector, pos =>
    let s := (runRange run).1
    let e := (runRange run).2
    let pos1 := pos + (s - lastSector) * 4096
    let buf := (data.drop pos1).take ((e - s) * 4096)
    match sliceRun buf s run with
    | .error err => (.error err, pos1 + buf.length)
    | .ok emitted =>
      match runFold data rest e (pos1 + buf.length) with
      | (.error err, finalPos) => (.error err, finalPos)
      | (.ok more, finalPos) => (.ok (emitted ++ more), finalPos)

/-- The list of `(slot index, framed bytes)` pairs `for_each_chunk` passes to
its callback, reading the container bytes `data` from position 8192 (where
`RegionFile::new` left the cursor), or the error that interrupts the scan. -/
def forEachChunkBytes (data : List Nat) (offsets : List Nat) (cap : Nat) :
    Except ReadError (List (Nat × List Nat)) :=
  (runFold data (runsOf cap offsets) 2 8192).1

/-- Parsing the first `n * 4` header bytes into packed big-endian `u32`
sector-table entries, as the loop in `RegionFile::new` does. -/
def parseOffsets : Nat → List Nat → List Nat
  | 0, _ => []
  | n + 1, b0 :: b1 :: b2 :: b3 :: rest =>
    (((b0 * 256 + b1) * 256 + b2) * 256 + b3) :: parseOffsets n rest
  | _ + 1, _ => []

/-- State of a `RegionFile`: the underlying file's bytes, the current seek
position of the file handle, and the decoded 1024-entry sector table. -/
structure RegionFile where
  data : List Nat
  pos : Nat
  offsets : List Nat
deriving DecidableEq

/-- Model of `RegionFile::new`: read the 8192-byte header with `read_exact`
(an `UnexpectedEof` error if the file is shorter) and decode the 1024 packed
sector-table entries from its first 4096 bytes, leaving the cursor at 8192. -/
def RegionFile.new (data : List Nat) : Except ReadError RegionFile :=
  if data.length < 8192 then .error .unexpectedEof
  else .ok ⟨data, 8192, parseOffsets 1024 data⟩

/-- Model of `RegionFile::for_each_chunk` (with the source's cap of 16):
sort a private copy of the sector table, coalesce runs, read them from the
current cursor position, and return the callback arguments together with the
updated `RegionFile` (same table, advanced cursor). -/
def RegionFile.forEachChunk (rf : RegionFile) :
    Except ReadError (List (Nat × List Nat)) × RegionFile :=
  let r := runFold rf.data (runsOf 16 rf.offsets) 2 rf.pos
  (r.1, ⟨rf.data, r.2, rf.offsets⟩)

/-- Model of the `scan_region_file` closure of `dump-items.rs` (with no
chunk-radius filter): open the region file via `RegionFile::new`; on an
`UnexpectedEof` header error print a diagnostic and return `Ok(())`, skipping
the file; propagate any other error with `eyre::bail!`; otherwise run
`for_each_chunk`, whose errors propagate through `?` and abort the scan.  The
returned list holds the chunks sent to the worker queue. -/
def scanRegionFile (data : List Nat) : Except ReadError (List (Nat × List Nat)) :=
  match RegionFile.new data with
  | .error .unexpectedEof => .ok []
  | .error e => .error e
  | .ok rf => (rf.forEachChunk).1

/-- The three compression flavors `read_chunk` dispatches to. -/
inductive Flavor where
  | uncompressed
  | gzCompressed
  | zlibCompressed
deriving DecidableEq

/-- The `ChunkError` enum of `region.rs`; the `Io` and `NbtIo` variants are
`#[error(transparent)]` wrappers, carried here as their display strings. -/
inductive ChunkError where
  | invalidCompressionType (t : Nat)
  | ioError (msg : String)
  | nbtIoError (msg : String)
deriving DecidableEq

/-- Display string of a `ChunkError`, following its `thiserror` attributes:
`"invalid compression type {0}"` for the first variant, transparent wrapping
for the other two. -/
def ChunkError.message : ChunkError → String
  | .invalidCompressionType t => "invalid compression type " ++ toString t
  | .ioError msg => msg
  | .nbtIoError msg => msg

/-- A decoded NBT tree (the external tree format).  Only the node kinds the
extraction logic inspects are modelled: byte scalars, strings, lists and
compounds (name-to-node maps, modelled as association lists). -/
inductive Nbt where
  | byte (n : Nat)
  | string (s : String)
  | list (items : List Nbt)
  | compound (fields : List (String × Nbt))

/-- Field lookup in a compound node, `None` on a non-compound node or a
missing name (models `NbtCompound::get` / `contains_key`). -/
def Nbt.getField : Nbt → String → Option Nbt
  | .compound fields, name => (fields.find? (fun f => f.1 == name)).map (fun f => f.2)
  | _, _ => none

/-- Typed element access of `iter_map::<&NbtCompound>`: succeeds exactly on
compound nodes (`item.unwrap()` panics otherwise). -/
def Nbt.asCompoundNode : Nbt → Option Nbt
  | .compound fields => some (.compound fields)
  | _ => none

/-- Model of `read_chunk`: read the codec discriminant byte, dispatch on
0 / 1 / 2 (uncompressed / gzip / zlib), return `InvalidCompressionType` for
any other value before invoking the tree decoder, and propagate decoder
errors.  Decompression plus NBT decoding (`quartz_nbt::io::read_nbt`) is the
external capability `readNbt`. -/
def read_chunk (readNbt : Flavor → List Nat → Except String Nbt) :
    List Nat → Except ChunkError Nbt
  | [] => .error (.ioError "failed to fill whole buffer")
  | t :: rest =>
    match t with
    | 0 =>
      match readNbt .uncompressed rest with
      | .error e => .error (.nbtIoError e)
      | .ok v => .ok v
    | 1 =>
      match readNbt .gzCompressed rest with
      | .error e => .error (.nbtIoError e)
      | .ok v => .ok v
    | 2 =>
      match readNbt .zlibCompressed rest with
      | .error e => .error (.nbtIoError e)
      | .ok v => .ok v
    | t => .error (.invalidCompressionType t)

/-- The built-in `ENTITY_IDS` list of `dump-items.rs`. -/
def ENTITY_IDS : List String :=
  ["minecraft:item", "minecraft:item_frame", "minecraft:glow_item_frame",
   "minecraft:chest_minecart", "minecraft:hopper_minecart"]

/-- The built-in `BLOCK_ENTITY_IDS` list of `dump-items.rs`. -/
def BLOCK_ENTITY_IDS : List String :=
  ["minecraft:barrel", "minecraft:blast_furnace", "minecraft:dispenser",
   "minecraft:dropper", "minecraft:chest", "minecraft:furnace",
   "minecraft:hopper", "minecraft:shulker_box", "minecraft:smoker",
   "minecraft:trapped_chest"]

/-- The worker's handling of one element of the `Entities` list in
`dump-items.rs`: read the `id` discriminant (`unwrap` — `none` models the
panic), skip entities whose id is not in the filter set, emit the optional
`Item` compound for the three item-like ids, emit the elements of the
optional `Items` list for the two minecart ids, and `panic!()` on any other
id that passed the filter. -/
def processEntity (entityIds : List String) (entity : Nbt) : Option (List Nbt) :=
  match entity.getField "id" with
  | some (.string id) =>
    if entityIds.contains id then
      if id = "minecraft:item" ∨ id = "minecraft:item_frame" ∨
          id = "minecraft:glow_item_frame" then
        match entity.getField "Item" with
        | some (.compound fields) => some [.compound fields]
        | some _ => none
        | none => some []
      else if id = "minecraft:chest_minecart" ∨ id = "minecraft:hopper_minecart" then
        match entity.getField "Items" with
        | some (.list items) => items.mapM Nbt.asCompoundNode
        | some _ => none
        | none => some []
      else none
    else some []
  | _ => none

/-- The worker's handling of one element of the `block_entities` list in
`dump-items.rs`: read the `id` discriminant; if the id is in the filter set
and the element has an `Items` key, emit every element of that list (each
must be a compound); otherwise emit nothing.  `none` models a panic. -/
def processBlockEntity (blockEntityIds : List String) (blockEntity : Nbt) :
    Option (List Nbt) :=
  match blockEntity.getField "id" with
  | some (.string id) =>
    if blockEntityIds.contains id && (blockEntity.getField "Items").isSome then
      match blockEntity.getField "Items" with
      | some (.list items) => items.mapM Nbt.asCompoundNode
      | _ => none
    else some []
  | _ => none

/-- The body of one iteration of a worker thread's loop in `dump-items.rs`
for a decoded chunk: walk the `Entities` list (entity chunks) or the
`block_entities` list (region chunks), handling every element; the records of
all elements are emitted in order.  `none` models a worker panic anywhere in
the body (`chunk.get(..).unwrap()` on a missing or non-list field, a
non-compound list element, or a panic inside the per-element handling). -/
def processChunk (entityIds blockEntityIds : List String) (isEntityChunk : Bool)
    (chunk : Nbt) : Option (List Nbt) :=
  if isEntityChunk then
    match chunk.getField "Entities" with
    | some (.list entities) =>
      (entities.mapM (fun ent => (Nbt.asCompoundNode ent).bind
        (processEntity entityIds))).map List.flatten
    | _ => none
  else
    match chunk.getField "block_entities" with
    | some (.list blockEntities) =>
      (blockEntities.mapM (fun be => (Nbt.asCompoundNode be).bind
        (processBlockEntity blockEntityIds))).map List.flatten
    | _ => none

/-- A worker's full handling of one `(is_entity_chunk, buf)` work item taken
from the chunk queue: `read_chunk(&buf).unwrap()` (a decode error panics the
worker), then `processChunk`. -/
def workerChunk (readNbt : Flavor → List Nat → Except String Nbt)
    (entityIds blockEntityIds : List String) (isEntityChunk : Bool)
    (buf : List Nat) : Option (List Nbt) :=
  match read_chunk readNbt buf with
  | .error _ => none
  | .ok chunk => processChunk entityIds blockEntityIds isEntityChunk chunk

/-- Outcome of one `scan_dimension` pipeline run over the chunks the producer
sends: either the scan completes — every send succeeded, the producer drops
the channels, the printer thread (which never panics) drains the records and
`handle.join().unwrap()` succeeds, so `scan_dimension` returns `Ok` — or the
producer itself panics because `chunk_tx.send(..).unwrap()` failed. -/
inductive PipelineResult where
  | completed (records : List Nbt)
  | producerPanic

/-- Deterministic model of the `scan_dimension` pipeline loop of
`dump-items.rs` over the work items the producer sends.  The four workers
run the same closure and are interchangeable, so the only state a worker
panic changes is how many workers are still receiving; records are
accumulated in send order, one admissible serialization of the racy output
(nothing proved about this model depends on the serialization).
`crossbeam_channel::Sender::send` fails only once every receiver has been
dropped — that is, once all workers have died — and the producer's
`.unwrap()` on that failure is the only way a worker panic can reach the
main thread and abort the run; while at least one worker survives, every
queued chunk is processed and every send succeeds. -/
def pipelineGo (readNbt : Flavor → List Nat → Except String Nbt)
    (entityIds blockEntityIds : List String) :
    List (Bool × List Nat) → Nat → List Nbt → PipelineResult
  | [], _, acc => .completed acc
  | c :: rest, aliveWorkers, acc =>
    if aliveWorkers = 0 then .producerPanic
    else
      match workerChunk readNbt entityIds blockEntityIds c.1 c.2 with
      | some recs => pipelineGo readNbt entityIds blockEntityIds rest aliveWorkers (acc ++ recs)
      | none => pipelineGo readNbt entityIds blockEntityIds rest (aliveWorkers - 1) acc

/-- A `scan_dimension` pipeline run with its fixed pool of 4 workers
(`for _ in 0..4 { std::thread::spawn(..) }`). -/
def pipelineScan (readNbt : Flavor → List Nat → Except String Nbt)
    (entityIds blockEntityIds : List String) (chunks : List (Bool × List Nat)) :
    PipelineResult :=
  pipelineGo readNbt entityIds blockEntityIds chunks 4 []

/-- Chunk x-coordinate of slot `index` of region `regionX`:
`region_x * 32 + (index % 32)`. -/
def chunkXOf (regionX : Int) (index : Nat) : Int := regionX * 32 + (index % 32 : Nat)

/-- Chunk z-coordinate of slot `index` of region `regionZ`:
`region_z * 32 + (index / 32)`. -/
def chunkZOf (regionZ : Int) (index : Nat) : Int := regionZ * 32 + (index / 32 : Nat)

/-- The per-chunk radius filter inside the `for_each_chunk` callback of
`dump-items.rs`: the chunk is sent to the worker queue unless
`max(|chunk_x * 2 + 1|, |chunk_z * 2 + 1|) > 2 * chunk_radius`. -/
def chunkSent (chunkRadius : Nat) (regionX regionZ : Int) (index : Nat) : Bool :=
  !(decide (max (2 * chunkXOf regionX index + 1).natAbs
      (2 * chunkZOf regionZ index + 1).natAbs > 2 * chunkRadius))

/-- The per-region-file radius clip in the driver loop of `dump-items.rs`:
with `r = (chunk_radius as i32 - 1) / 32` (Rust `i32` division truncates
toward zero, hence `Int.tdiv`), the region is skipped when
`region_x > r || region_x < -r - 1 || region_z > r || region_z < -r - 1`. -/
def regionVisited (chunkRadius : Nat) (regionX regionZ : Int) : Bool :=
  let r : Int := Int.tdiv ((chunkRadius : Int) - 1) 32
  !(decide (regionX > r ∨ regionX < -r - 1 ∨ regionZ > r ∨ regionZ < -r - 1))

/-- One `(id, Count)` reading of an item compound in `count-items.rs`
(`item.get::<_, &String>("id")?` and `item.get::<_, u8>("Count")?`); `none`
models the `?` failure that aborts the program. -/
def itemEntry (item : Nbt) : Option (String × Nat) :=
  match item.getField "id", item.getField "Count" with
  | some (.string id), some (.byte c) => some (id, c)
  | _, _ => none

/-- The per-line processing of `count-items.rs`, as the list of `(id, count)`
contributions it adds to the running totals: the item's own entry always,
plus — when the id ends with `shulker_box` and the item has a
`tag.BlockEntityTag.Items` list — one entry per element of that nested
list.  `none` models an error propagated by `?`. -/
def countLine (item : Nbt) : Option (List (String × Nat)) :=
  match item.getField "id", item.getField "Count" with
  | some (.string id), some (.byte c) =>
    if "shulker_box".data.isSuffixOf id.data then
      match item.getField "tag" with
      | none => some [(id, c)]
      | some (.compound tagFields) =>
        match (Nbt.compound tagFields).getField "BlockEntityTag" with
        | none => some [(id, c)]
        | some (.compound betFields) =>
          match (Nbt.compound betFields).getField "Items" with
          | none => some [(id, c)]
          | some (.list items) =>
            match items.mapM (fun n => (Nbt.asCompoundNode n).bind itemEntry) with
            | none => none
            | some nested => some ((id, c) :: nested)
          | some _ => none
        | some _ => none
      | some _ => none
    else some [(id, c)]
  | _, _ => none

def c1Offsets : List Nat := 514 :: 3078 :: List.replicate 1022 0

def c5Offsets : List Nat := 514 :: 3078 :: List.replicate 1022 0

def c4CexOffsets : List Nat := 520 :: 2569 :: List.replicate 1022 0

def c4Offsets : List Nat := 0 :: 513 :: List.replicate 1022 0

def c4Data : List Nat :=
  List.replicate 8192 0 ++ (0 :: 0 :: 0 :: 5 :: 9 :: 9 :: 9 :: 9 :: 9 :: List.replicate 4087 0)

def c4OkOffsets : List Nat := 520 :: 2566 :: List.replicate 1022 0

def c2Data : List Nat := 0 :: 0 :: 2 :: 1 :: List.replicate 8188 0

def c2CexData : List Nat := 0 :: 0 :: 2 :: 2 :: List.replicate 8188 0

def c10ZeroFile : RegionFile := ⟨[], 8192, List.replicate 1024 0⟩

def c10Offsets : List Nat := 513 :: List.replicate 1023 0

def c10Data : List Nat :=
  List.replicate 8192 0 ++ (0 :: 0 :: 0 :: 5 :: 7 :: 7 :: 7 :: 7 :: 7 :: List.replicate 4087 0)

def c10File : RegionFile := ⟨c10Data, 8192, c10Offsets⟩

/-- The five entity ids the worker's `match` in `dump-items.rs` knows how to
handle. -/
def knownEntityIds : List String :=
  ["minecraft:item", "minecraft:item_frame", "minecraft:glow_item_frame",
   "minecraft:chest_minecart", "minecraft:hopper_minecart"]

def shulkerNestedItem (k : Nat) : Nbt :=
  .compound [("id", .string "minecraft:diamond"), ("Count", .byte k)]

def c3BlockEntity : Nbt :=
  .compound [("id", .string "minecraft:shulker_box"),
    ("tag", .compound [("BlockEntityTag", .compound [("Items",
      .list [shulkerNestedItem 1, shulkerNestedItem 2, shulkerNestedItem 3])])])]

def c3ShulkerItem : Nbt :=
  .compound [("id", .string "minecraft:shulker_box"), ("Count", .byte 1),
    ("tag", .compound [("BlockEntityTag", .compound [("Items",
      .list [shulkerNestedItem 1, shulkerNestedItem 2, shulkerNestedItem 3])])])]

def c9Ids : List String := ["minecraft:armor_stand", "minecraft:item"]

def c9BadEntity : Nbt := .compound [("id", .string "minecraft:armor_stand")]

def c9ItemRecord : Nbt := .compound [("id", .string "minecraft:diamond")]

def c9GoodEntity : Nbt :=
  .compound [("id", .string "minecraft:item"), ("Item", c9ItemRecord)]

def c9BadChunk : Nbt := .compound [("Entities", .list [c9BadEntity])]

def c9GoodChunk : Nbt := .compound [("Entities", .list [c9GoodEntity])]

/-- Test instance of the external tree-decoder capability: payload `[1]`
decodes to the chunk holding the policy-violating entity, payload `[2]` to
the chunk holding a well-formed item entity. -/
def c9Decoder : Flavor → List Nat → Except String Nbt := fun _ payload =>
  if payload = [1] then .ok c9BadChunk
  else if payload = [2] then .ok c9GoodChunk
  else .error "unknown test payload"

theorem extendRun_append (cap start : Nat) :
    ∀ (l : List (Nat × Nat)) (prev : Nat),
      (extendRun cap start prev l).1 ++ (extendRun cap start prev l).2 = l := by
  intro l
  induction l with
  | nil => intro prev; simp [extendRun]
  | cons p rest ih =>
    intro prev
    simp only [extendRun]
    split
    · simp
    · simp [ih]

theorem extendRun_rem_length (cap start prev : Nat) (l : List (Nat × Nat)) :
    (extendRun cap start prev l).2.length ≤ l.length := by
  have h := extendRun_append cap start l prev
  calc (extendRun cap start prev l).2.length
      ≤ (extendRun cap start prev l).1.length + (extendRun cap start prev l).2.length :=
        Nat.le_add_left _ _
    _ = l.length := by rw [← List.length_append, h]

theorem extendRun_rem_suffix (cap start prev : Nat) (l : List (Nat × Nat)) :
    (extendRun cap start prev l).2 <:+ l :=
  ⟨(extendRun cap start prev l).1, extendRun_append cap start l prev⟩

theorem buildRunsF_eq_buildRuns (cap : Nat) :
    ∀ (fuel : Nat) (l : List (Nat × Nat)), l.length ≤ fuel →
      buildRunsF cap fuel l = buildRuns cap l := by
  intro fuel
  induction fuel using Nat.strong_induction_on with
  | _ fuel ih =>
    intro l hl
    cases l with
    | nil => cases fuel <;> simp [buildRunsF, buildRuns]
    | cons p rest =>
    cases fuel with
    | zero => simp at hl
    | succ fuel =>
      have hrest : rest.length ≤ fuel := by simpa using hl
      by_cases hp : p.2 = 0
      · have h1 : buildRunsF cap (fuel + 1) (p :: rest) = buildRunsF cap fuel rest := by
          simp [buildRunsF, hp]
        have h2 : buildRuns cap (p :: rest) = buildRunsF cap rest.length rest := by
          simp [buildRuns, List.length_cons, buildRunsF, hp]
        rw [h1, h2, ih fuel (Nat.lt_succ_self _) rest hrest,
          ih rest.length (Nat.lt_succ_of_le hrest) rest le_rfl]
      · have hrem := extendRun_rem_length cap (sectorStart p.2) (sectorEnd p.2) rest
        have h1 : buildRunsF cap (fuel + 1) (p :: rest) =
            (p :: (extendRun cap (sectorStart p.2) (sectorEnd p.2) rest).1) ::
              buildRunsF cap fuel (extendRun cap (sectorStart p.2) (sectorEnd p.2) rest).2 := by
          simp [buildRunsF, hp]
        have h2 : buildRuns cap (p :: rest) =
            (p :: (extendRun cap (sectorStart p.2) (sectorEnd p.2) rest).1) ::
              buildRunsF cap rest.length (extendRun cap (sectorStart p.2) (sectorEnd p.2) rest).2 := by
          simp [buildRuns, List.length_cons, buildRunsF, hp]
        rw [h1, h2, ih fuel (Nat.lt_succ_self _) _ (le_trans hrem hrest),
          ih rest.length (Nat.lt_succ_of_le hrest) _ hrem]

theorem buildRuns_nil (cap : Nat) : buildRuns cap [] = [] := rfl

theorem buildRuns_cons_zero (cap : Nat) (p : Nat × Nat) (rest : List (Nat × Nat))
    (hp : p.2 = 0) : buildRuns cap (p :: rest) = buildRuns cap rest := by
  have h1 : buildRuns cap (p :: rest) = buildRunsF cap rest.length rest := by
    simp [buildRuns, List.length_cons, buildRunsF, hp]
  rw [h1, buildRunsF_eq_buildRuns cap rest.length rest le_rfl]

theorem buildRuns_cons_ne (cap : Nat) (p : Nat × Nat) (rest : List (Nat × Nat))
    (hp : p.2 ≠ 0) : buildRuns cap (p :: rest) =
      (p :: (extendRun cap (sectorStart p.2) (sectorEnd p.2) rest).1) ::
        buildRuns cap (extendRun cap (sectorStart p.2) (sectorEnd p.2) rest).2 := by
  have h1 : buildRuns cap (p :: rest) =
      (p :: (extendRun cap (sectorStart p.2) (sectorEnd p.2) rest).1) ::
        buildRunsF cap rest.length (extendRun cap (sectorStart p.2) (sectorEnd p.2) rest).2 := by
    simp [buildRuns, List.length_cons, buildRunsF, hp]
  rw [h1, buildRunsF_eq_buildRuns cap rest.length _
    (extendRun_rem_length cap (sectorStart p.2) (sectorEnd p.2) rest)]


theorem getLast?_cons_eq {α : Type} (p : α) (l : List α) :
    (p :: l).getLast? = some (l.getLastD p) := by
  induction l generalizing p with
  | nil => rfl
  | cons q t ih => rw [List.getLast?_cons_cons, ih q, List.getLastD_cons]

theorem sorted_sortedEntries (offsets : List Nat) :
    List.Sorted (fun a b : Nat × Nat => a.2 ≤ b.2) (sortedEntries offsets) :=
  @List.sorted_insertionSort (Nat × Nat) (fun a b => a.2 ≤ b.2) inferInstance
    ⟨fun a b => Nat.le_total a.2 b.2⟩ ⟨fun _ _ _ h1 h2 => le_trans h1 h2⟩ offsets.enum

theorem perm_sortedEntries (offsets : List Nat) :
    (sortedEntries offsets).Perm offsets.enum :=
  List.perm_insertionSort _ offsets.enum

theorem buildRuns_flatten_aux (cap : Nat) :
    ∀ (n : Nat) (l : List (Nat × Nat)), l.length ≤ n →
      List.Sorted (fun a b : Nat × Nat => a.2 ≤ b.2) l →
      (buildRuns cap l).flatten = l.filter (fun p => p.2 != 0) := by
  intro n
  induction n using Nat.strong_induction_on with
  | _ n ih =>
  intro l hl hs
  cases l with
  | nil => simp [buildRuns_nil]
  | cons p rest =>
  cases n with
  | zero => simp at hl
  | succ n =>
  have hrest : rest.length ≤ n := by simpa using hl
  rw [List.sorted_cons] at hs
  obtain ⟨hhead, htail⟩ := hs
  by_cases hp : p.2 = 0
  · rw [buildRuns_cons_zero cap p rest hp,
      ih n (Nat.lt_succ_self n) rest hrest htail]
    simp [List.filter_cons, hp]
  · have hnz : ∀ q ∈ rest, q.2 ≠ 0 := fun q hq => by
      have := hhead q hq; omega
    have happ := extendRun_append cap (sectorStart p.2) rest (sectorEnd p.2)
    have hsub := (extendRun_rem_suffix cap (sectorStart p.2) (sectorEnd p.2) rest).sublist
    rw [buildRuns_cons_ne cap p rest hp]
    have hrem := ih n (Nat.lt_succ_self n)
      (extendRun cap (sectorStart p.2) (sectorEnd p.2) rest).2
      (le_trans (extendRun_rem_length cap (sectorStart p.2) (sectorEnd p.2) rest) hrest)
      (List.Pairwise.sublist hsub htail)
    have hfilter_rem :
        (extendRun cap (sectorStart p.2) (sectorEnd p.2) rest).2.filter
          (fun p => p.2 != 0) = (extendRun cap (sectorStart p.2) (sectorEnd p.2) rest).2 :=
      List.filter_eq_self.mpr (fun q hq => by
        have : q ∈ rest := hsub.mem hq
        simpa using hnz q this)
    have hfilter_rest : rest.filter (fun p => p.2 != 0) = rest :=
      List.filter_eq_self.mpr (fun q hq => by simpa using hnz q hq)
    have hfl : ((p :: (extendRun cap (sectorStart p.2) (sectorEnd p.2) rest).1) ::
        buildRuns cap (extendRun cap (sectorStart p.2) (sectorEnd p.2) rest).2).flatten
        = p :: rest := by
      simp only [List.flatten_cons, List.cons_append, hrem, hfilter_rem]
      rw [happ]
    rw [hfl, List.filter_cons]
    simp [hp, hfilter_rest]

theorem buildRuns_flatten (cap : Nat) (l : List (Nat × Nat))
    (hs : List.Sorted (fun a b : Nat × Nat => a.2 ≤ b.2) l) :
    (buildRuns cap l).flatten = l.filter (fun p => p.2 != 0) :=
  buildRuns_flatten_aux cap l.length l le_rfl hs

theorem buildRuns_eq_filter_aux (cap : Nat) :
    ∀ (n : Nat) (l : List (Nat × Nat)), l.length ≤ n →
      List.Sorted (fun a b : Nat × Nat => a.2 ≤ b.2) l →
      buildRuns cap l = buildRuns cap (l.filter (fun p => p.2 != 0)) := by
  intro n
  induction n using Nat.strong_induction_on with
  | _ n ih =>
  intro l hl hs
  cases l with
  | nil => rfl
  | cons p rest =>
  cases n with
  | zero => simp at hl
  | succ n =>
  have hrest : rest.length ≤ n := by simpa using hl
  rw [List.sorted_cons] at hs
  obtain ⟨hhead, htail⟩ := hs
  by_cases hp : p.2 = 0
  · rw [buildRuns_cons_zero cap p rest hp,
      ih n (Nat.lt_succ_self n) rest hrest htail]
    simp [List.filter_cons, hp]
  · have hnz : ∀ q ∈ rest, q.2 ≠ 0 := fun q hq => by
      have := hhead q hq; omega
    have hfilter : (p :: rest).filter (fun p => p.2 != 0) = p :: rest :=
      List.filter_eq_self.mpr (fun q hq => by
        rcases List.mem_cons.mp hq with h | h
        · subst h; simpa using hp
        · simpa using hnz q h)
    rw [hfilter]

theorem buildRuns_all_zero_aux (cap : Nat) :
    ∀ (n : Nat) (l : List (Nat × Nat)), l.length ≤ n →
      (∀ p ∈ l, p.2 = 0) → buildRuns cap l = [] := by
  intro n
  induction n using Nat.strong_induction_on with
  | _ n ih =>
  intro l hl hz
  cases l with
  | nil => rfl
  | cons p rest =>
  cases n with
  | zero => simp at hl
  | succ n =>
  have hrest : rest.length ≤ n := by simpa using hl
  rw [buildRuns_cons_zero cap p rest (hz p (List.mem_cons_self p rest)),
    ih n (Nat.lt_succ_self n) rest hrest (fun q hq => hz q (List.mem_cons_of_mem p hq))]

theorem buildRuns_chain_aux (cap : Nat) :
    ∀ (n : Nat) (l : List (Nat × Nat)), l.length ≤ n →
      (∀ p ∈ l, p.2 ≠ 0) →
      List.Chain' (fun a b : Nat × Nat => sectorEnd a.2 ≤ sectorStart b.2) l →
      List.Chain' (fun r s : Nat × Nat => r.2 ≤ s.1) ((buildRuns cap l).map runRange) := by
  intro n
  induction n using Nat.strong_induction_on with
  | _ n ih =>
  intro l hl hnz hc
  cases l with
  | nil => rw [buildRuns_nil]; simp
  | cons p rest =>
  cases n with
  | zero => simp at hl
  | succ n =>
  have hrest : rest.length ≤ n := by simpa using hl
  have hp : p.2 ≠ 0 := hnz p (List.mem_cons_self p rest)
  have happ := extendRun_append cap (sectorStart p.2) rest (sectorEnd p.2)
  have hsub := (extendRun_rem_suffix cap (sectorStart p.2) (sectorEnd p.2) rest).sublist
  -- split the chain along `(p :: run) ++ rem = p :: rest`
  have hsplit : (p :: (extendRun cap (sectorStart p.2) (sectorEnd p.2) rest).1) ++
      (extendRun cap (sectorStart p.2) (sectorEnd p.2) rest).2 = p :: rest := by
    simp [happ]
  have hc' := hc
  rw [← hsplit, List.chain'_append] at hc'
  obtain ⟨hc1, hc2, hcx⟩ := hc'
  rw [buildRuns_cons_ne cap p rest hp, List.map_cons]
  rw [List.chain'_cons']
  refine ⟨?_, ?_⟩
  · intro y hy
    rcases hrem : (extendRun cap (sectorStart p.2) (sectorEnd p.2) rest).2 with _ | ⟨q, t⟩
    · rw [hrem, buildRuns_nil] at hy; simp at hy
    · have hq : q.2 ≠ 0 := by
        refine hnz q (List.mem_cons_of_mem p (hsub.mem ?_))
        rw [hrem]; exact List.mem_cons_self q t
      rw [hrem, buildRuns_cons_ne cap q t hq, List.map_cons, List.head?_cons,
        Option.mem_some_iff] at hy
      subst hy
      have hrel := hcx ((extendRun cap (sectorStart p.2) (sectorEnd p.2) rest).1.getLastD p)
        (by rw [getLast?_cons_eq]; rfl) q (by rw [hrem]; rfl)
      simpa [runRange] using hrel
  · exact ih n (Nat.lt_succ_self n)
      (extendRun cap (sectorStart p.2) (sectorEnd p.2) rest).2
      (le_trans (extendRun_rem_length cap (sectorStart p.2) (sectorEnd p.2) rest) hrest)
      (fun q hq => hnz q (List.mem_cons_of_mem p (hsub.mem hq))) hc2

theorem map_snd_filter_nonzero :
    ∀ (l : List (Nat × Nat)),
      (l.filter (fun p => p.2 != 0)).map Prod.snd = (l.map Prod.snd).filter (fun e => e != 0) := by
  intro l
  induction l with
  | nil => rfl
  | cons p t ih => by_cases h : p.2 = 0 <;> simp [List.filter_cons, h, ih]

theorem filtered_sorted (offsets : List Nat) :
    List.Sorted (fun a b : Nat × Nat => a.2 ≤ b.2)
      ((sortedEntries offsets).filter (fun p => p.2 != 0)) :=
  (sorted_sortedEntries offsets).filter _

theorem filtered_perm (offsets : List Nat) :
    ((sortedEntries offsets).filter (fun p => p.2 != 0)).Perm
      (offsets.enum.filter (fun p => p.2 != 0)) :=
  (perm_sortedEntries offsets).filter _

theorem filtered_mem_entry {offsets : List Nat} {q : Nat × Nat}
    (hq : q ∈ (sortedEntries offsets).filter (fun p => p.2 != 0)) :
    q.2 ∈ offsets ∧ q.2 ≠ 0 := by
  obtain ⟨hmem, hne⟩ := List.mem_filter.mp hq
  have henum : q ∈ offsets.enum := ((perm_sortedEntries offsets).mem_iff).mp hmem
  constructor
  · have hm : q.2 ∈ offsets.enum.map Prod.snd := List.mem_map_of_mem Prod.snd henum
    rwa [List.enum_map_snd] at hm
  · simpa using hne

theorem wf_filtered_chain (offsets : List Nat) (hwf : slotTableWF offsets) :
    List.Chain' (fun a b : Nat × Nat => sectorEnd a.2 ≤ sectorStart b.2)
      ((sortedEntries offsets).filter (fun p => p.2 != 0)) := by
  have hsorted : List.Pairwise (fun a b : Nat × Nat => a.2 ≤ b.2)
      ((sortedEntries offsets).filter (fun p => p.2 != 0)) := filtered_sorted offsets
  have hpermsnd : (((sortedEntries offsets).filter (fun p => p.2 != 0)).map Prod.snd).Perm
      (offsets.filter (fun e => e != 0)) := by
    have h2 : (offsets.enum.filter (fun p => p.2 != 0)).map Prod.snd =
        offsets.filter (fun e => e != 0) := by
      rw [map_snd_filter_nonzero, List.enum_map_snd]
    rw [← h2]
    exact (filtered_perm offsets).map Prod.snd
  have hdisj_map : List.Pairwise disjointRanges
      (((sortedEntries offsets).filter (fun p => p.2 != 0)).map Prod.snd) :=
    (List.Perm.pairwise_iff (fun h => h.symm) hpermsnd).mpr hwf.2
  have hdisj : List.Pairwise (fun a b : Nat × Nat => disjointRanges a.2 b.2)
      ((sortedEntries offsets).filter (fun p => p.2 != 0)) :=
    List.pairwise_map.mp hdisj_map
  refine List.Pairwise.chain' ?_
  refine List.Pairwise.imp_of_mem ?_ (hsorted.and hdisj)
  intro a b ha hb hab
  obtain ⟨hle, hdis⟩ := hab
  have hcb : sectorCount b.2 ≠ 0 := by
    obtain ⟨hmem, hne⟩ := filtered_mem_entry hb
    exact hwf.1 b.2 hmem hne
  have hstart : sectorStart a.2 ≤ sectorStart b.2 := Nat.div_le_div_right hle
  rcases hdis with h | h
  · exact h
  · exfalso
    unfold sectorStart sectorEnd sectorCount at *
    omega

theorem visitOrder_eq (cap : Nat) (offsets : List Nat) :
    visitOrder cap offsets =
      ((sortedEntries offsets).filter (fun p => p.2 != 0)).map (fun p => p.1) := by
  unfold visitOrder runsOf
  rw [buildRuns_flatten cap _ (sorted_sortedEntries offsets)]

theorem visitOrder_perm (cap : Nat) (offsets : List Nat) :
    (visitOrder cap offsets).Perm (nonEmptySlots offsets) := by
  rw [visitOrder_eq]
  unfold nonEmptySlots
  exact ((perm_sortedEntries offsets).filter _).map _

theorem nonEmptySlots_nodup (offsets : List Nat) : (nonEmptySlots offsets).Nodup := by
  unfold nonEmptySlots
  have heta : (fun p : Nat × Nat => p.1) = Prod.fst := rfl
  rw [heta]
  have hsub : ((offsets.enum.filter (fun p => p.2 != 0)).map Prod.fst).Sublist
      (offsets.enum.map Prod.fst) :=
    List.Sublist.map Prod.fst (List.filter_sublist _)
  refine hsub.nodup ?_
  rw [List.enum_map_fst]
  exact List.nodup_range _

theorem visitOrder_nodup (cap : Nat) (offsets : List Nat) :
    (visitOrder cap offsets).Nodup :=
  ((visitOrder_perm cap offsets).symm).nodup (nonEmptySlots_nodup offsets)

theorem readRanges_chain (cap : Nat) (offsets : List Nat) (hwf : slotTableWF offsets) :
    List.Chain' (fun r s : Nat × Nat => r.2 ≤ s.1) (readRanges cap offsets) := by
  unfold readRanges runsOf
  rw [buildRuns_eq_filter_aux cap (sortedEntries offsets).length _ le_rfl
    (sorted_sortedEntries offsets)]
  exact buildRuns_chain_aux cap ((sortedEntries offsets).filter (fun p => p.2 != 0)).length
    _ le_rfl (fun q hq => by simpa using (List.mem_filter.mp hq).2)
    (wf_filtered_chain offsets hwf)

theorem sliceRun_ok_map_fst (buf : List Nat) (runStart : Nat) :
    ∀ (run : List (Nat × Nat)) (out : List (Nat × List Nat)),
      sliceRun buf runStart run = .ok out → out.map (fun p => p.1) = run.map (fun p => p.1) := by
  intro run
  induction run with
  | nil => intro out h; simp [sliceRun] at h; simp [← h]
  | cons q rest ih =>
    intro out h
    simp only [sliceRun] at h
    split at h
    · split at h
      · exact absurd h (by simp)
      · split at h
        · split at h
          · exact absurd h (by simp)
          · rename_i more hmore
            have := ih more hmore
            simp only [Except.ok.injEq] at h
            subst h
            simp [this]
        · exact absurd h (by simp)
    · exact absurd h (by simp)

theorem runFold_ok_map_fst (data : List Nat) :
    ∀ (runs : List (List (Nat × Nat))) (lastSector pos : Nat)
      (out : List (Nat × List Nat)) (finalPos : Nat),
      runFold data runs lastSector pos = (.ok out, finalPos) →
      out.map (fun p => p.1) = (runs.flatten).map (fun p => p.1) := by
  intro runs
  induction runs with
  | nil =>
    intro lastSector pos out finalPos h
    simp only [runFold, Prod.mk.injEq, Except.ok.injEq] at h
    simp [← h.1]
  | cons run rest ih =>
    intro lastSector pos out finalPos h
    simp only [runFold] at h
    split at h
    · exact absurd h (by simp)
    · rename_i emitted hsl
      split at h
      · exact absurd h (by simp)
      · rename_i more finalPos' hmore
        simp only [Prod.mk.injEq, Except.ok.injEq] at h
        obtain ⟨h1, h2⟩ := h
        subst h1
        simp [List.flatten_cons, sliceRun_ok_map_fst _ _ run emitted hsl,
          ih _ _ more finalPos' hmore]

theorem lastEndD_cons (prev : Nat) (p : Nat × Nat) (r : List (Nat × Nat)) :
    lastEndD prev (p :: r) = lastEndD (sectorEnd p.2) r := by
  cases r with
  | nil => rfl
  | cons q t => simp only [lastEndD, List.getLastD_cons]

theorem runRange_cons (p : Nat × Nat) (t : List (Nat × Nat)) :
    runRange (p :: t) = (sectorStart p.2, lastEndD (sectorEnd p.2) t) := by
  cases t with
  | nil => rfl
  | cons q r => simp only [runRange, lastEndD, List.getLastD_cons]

theorem extendRun_spec (cap start : Nat) :
    ∀ (l : List (Nat × Nat)) (prev : Nat),
      runChainOk cap start prev (extendRun cap start prev l).1 ∧
      ∀ q ∈ (extendRun cap start prev l).2.head?,
        ¬ extCond cap start (lastEndD prev (extendRun cap start prev l).1) q.2 := by
  intro l
  induction l with
  | nil =>
    intro prev
    refine ⟨trivial, ?_⟩
    intro q hq
    simp [extendRun] at hq
  | cons p rest ih =>
    intro prev
    by_cases hcond : (sectorEnd p.2 - start) + (sectorStart p.2 - prev) > cap
    · constructor
      · simp only [extendRun, if_pos hcond]
        trivial
      · simp only [extendRun, if_pos hcond]
        intro q hq
        simp only [List.head?_cons, Option.mem_some_iff] at hq
        subst hq
        simp only [lastEndD]
        unfold extCond
        omega
    · have ihp := ih (sectorEnd p.2)
      constructor
      · simp only [extendRun, if_neg hcond]
        exact ⟨by unfold extCond; omega, ihp.1⟩
      · simp only [extendRun, if_neg hcond]
        intro q hq
        have hih := ihp.2 q hq
        rwa [lastEndD_cons]

theorem buildRuns_greedy_aux (cap : Nat) :
    ∀ (n : Nat) (l : List (Nat × Nat)), l.length ≤ n → (∀ p ∈ l, p.2 ≠ 0) →
      greedyRuns cap (buildRuns cap l) := by
  intro n
  induction n using Nat.strong_induction_on with
  | _ n ih =>
  intro l hl hnz
  cases l with
  | nil => rw [buildRuns_nil]; trivial
  | cons p rest =>
  cases n with
  | zero => simp at hl
  | succ n =>
  have hrest : rest.length ≤ n := by simpa using hl
  have hp : p.2 ≠ 0 := hnz p (List.mem_cons_self p rest)
  have hsub := (extendRun_rem_suffix cap (sectorStart p.2) (sectorEnd p.2) rest).sublist
  rw [buildRuns_cons_ne cap p rest hp]
  have hspec := extendRun_spec cap (sectorStart p.2) rest (sectorEnd p.2)
  have hrec : greedyRuns cap
      (buildRuns cap (extendRun cap (sectorStart p.2) (sectorEnd p.2) rest).2) :=
    ih n (Nat.lt_succ_self n) _
      (le_trans (extendRun_rem_length cap (sectorStart p.2) (sectorEnd p.2) rest) hrest)
      (fun q hq => hnz q (List.mem_cons_of_mem p (hsub.mem hq)))
  refine ⟨⟨hspec.1, ?_⟩, hrec⟩
  rcases hrem : (extendRun cap (sectorStart p.2) (sectorEnd p.2) rest).2 with _ | ⟨q, t⟩
  · rw [buildRuns_nil]
    trivial
  · have hq : q.2 ≠ 0 := by
      refine hnz q (List.mem_cons_of_mem p (hsub.mem ?_))
      rw [hrem]; exact List.mem_cons_self q t
    rw [buildRuns_cons_ne cap q t hq]
    exact hspec.2 q (by rw [hrem]; rfl)

theorem runsOf_eq_buildRuns_filtered (cap : Nat) (offsets : List Nat) :
    runsOf cap offsets =
      buildRuns cap ((sortedEntries offsets).filter (fun p => p.2 != 0)) := by
  unfold runsOf
  exact buildRuns_eq_filter_aux cap (sortedEntries offsets).length _ le_rfl
    (sorted_sortedEntries offsets)

theorem chain_contigFrom :
    ∀ (rest : List (Nat × Nat)) (p : Nat × Nat),
      List.Chain' (fun a b : Nat × Nat => sectorStart b.2 = sectorEnd a.2) (p :: rest) →
      contigFrom (sectorEnd p.2) rest := by
  intro rest
  induction rest with
  | nil => intro p _; trivial
  | cons q t ih =>
    intro p h
    rw [List.chain'_cons] at h
    exact ⟨h.1, ih q h.2⟩

theorem contigFrom_le :
    ∀ (l : List (Nat × Nat)) (prev : Nat), contigFrom prev l → prev ≤ lastEndD prev l := by
  intro l
  induction l with
  | nil => intro prev _; exact le_rfl
  | cons q t ih =>
    intro prev h
    obtain ⟨h1, h2⟩ := h
    rw [lastEndD_cons]
    calc prev = sectorStart q.2 := h1.symm
      _ ≤ sectorEnd q.2 := Nat.le_add_right _ _
      _ ≤ lastEndD (sectorEnd q.2) t := ih (sectorEnd q.2) h2

theorem contig_end_le :
    ∀ (l : List (Nat × Nat)) (prev : Nat), contigFrom prev l →
      ∀ q ∈ l, sectorEnd q.2 ≤ lastEndD prev l := by
  intro l
  induction l with
  | nil => intro prev _ q hq; simp at hq
  | cons r t ih =>
    intro prev h q hq
    obtain ⟨h1, h2⟩ := h
    rw [lastEndD_cons]
    rcases List.mem_cons.mp hq with hqr | hqt
    · subst hqr
      exact contigFrom_le t (sectorEnd q.2) h2
    · exact ih (sectorEnd r.2) h2 q hqt

theorem extendRun_all (cap start : Nat) :
    ∀ (l : List (Nat × Nat)) (prev : Nat), contigFrom prev l →
      (∀ q ∈ l, sectorEnd q.2 - start ≤ cap) →
      extendRun cap start prev l = (l, []) := by
  intro l
  induction l with
  | nil => intro prev _ _; rfl
  | cons q t ih =>
    intro prev hcontig hbound
    obtain ⟨h1, h2⟩ := hcontig
    have hcond : ¬ ((sectorEnd q.2 - start) + (sectorStart q.2 - prev) > cap) := by
      have := hbound q (List.mem_cons_self q t)
      rw [h1]
      omega
    simp only [extendRun, if_neg hcond]
    rw [ih (sectorEnd q.2) h2 (fun r hr => hbound r (List.mem_cons_of_mem q hr))]

theorem oneRead_of_contig (offsets : List Nat) (p : Nat × Nat) (t : List (Nat × Nat))
    (hl : (sortedEntries offsets).filter (fun q => q.2 != 0) = p :: t)
    (hcontig : List.Chain' (fun a b : Nat × Nat => sectorStart b.2 = sectorEnd a.2) (p :: t))
    (hspan : (runRange (p :: t)).2 - (runRange (p :: t)).1 ≤ 16) :
    readRanges 16 offsets = [runRange (p :: t)] := by
  have hp : p.2 ≠ 0 := by
    have : p ∈ (sortedEntries offsets).filter (fun q => q.2 != 0) := by
      rw [hl]; exact List.mem_cons_self p t
    simpa using (List.mem_filter.mp this).2
  have hbound : ∀ q ∈ t, sectorEnd q.2 - sectorStart p.2 ≤ 16 := by
    intro q hq
    have hle : sectorEnd q.2 ≤ lastEndD (sectorEnd p.2) t :=
      contig_end_le t (sectorEnd p.2) (chain_contigFrom t p hcontig) q hq
    have hspan' : lastEndD (sectorEnd p.2) t - sectorStart p.2 ≤ 16 := by
      rw [runRange_cons] at hspan
      exact hspan
    omega
  unfold readRanges
  rw [runsOf_eq_buildRuns_filtered, hl, buildRuns_cons_ne 16 p t hp,
    extendRun_all 16 (sectorStart p.2) t (sectorEnd p.2)
      (chain_contigFrom t p hcontig) hbound]
  rw [buildRuns_nil]
  rfl

theorem scanRegionFile_trunc (data : List Nat) (hlen : data.length = 8192)
    (p : Nat × Nat) (t : List (Nat × Nat))
    (hl : (sortedEntries (parseOffsets 1024 data)).filter (fun q => q.2 != 0) = p :: t)
    (hge : 2 ≤ sectorStart p.2) :
    scanRegionFile data = .error .unexpectedEof := by
  have hp : p.2 ≠ 0 := by
    have : p ∈ (sortedEntries (parseOffsets 1024 data)).filter (fun q => q.2 != 0) := by
      rw [hl]; exact List.mem_cons_self p t
    simpa using (List.mem_filter.mp this).2
  unfold scanRegionFile RegionFile.new
  rw [if_neg (by omega)]
  show (runFold data (runsOf 16 (parseOffsets 1024 data)) 2 8192).1 = .error .unexpectedEof
  rw [runsOf_eq_buildRuns_filtered, hl, buildRuns_cons_ne 16 p t hp]
  simp only [runFold, runRange_cons]
  have hdrop : data.drop (8192 + (sectorStart p.2 - 2) * 4096) = [] :=
    List.drop_eq_nil_of_le (by omega)
  rw [hdrop]
  simp only [List.take_nil]
  have hslice : sliceRun [] (sectorStart p.2)
      (p :: (extendRun 16 (sectorStart p.2) (sectorEnd p.2) t).1) =
      .error .unexpectedEof := by
    simp [sliceRun, readU32BE]
  rw [hslice]

theorem readU32BE_some {l : List Nat} {v : Nat} {tl : List Nat}
    (h : readU32BE l = some (v, tl)) : 4 ≤ l.length ∧ tl = l.drop 4 := by
  rcases l with _ | ⟨b0, _ | ⟨b1, _ | ⟨b2, _ | ⟨b3, rest⟩⟩⟩⟩ <;>
    simp [readU32BE] at h
  obtain ⟨-, h2⟩ := h
  subst h2
  constructor
  · simp
  · rfl

theorem runFold_single (data : List Nat) (idx e len : Nat) (tail : List Nat)
    (hs : 2 ≤ sectorStart e) (hc : 1 ≤ sectorCount e)
    (hdata : (sectorStart e + sectorCount e) * 4096 ≤ data.length)
    (hread : readU32BE (data.drop (sectorStart e * 4096)) = some (len, tail))
    (hfit : len + 4 ≤ sectorCount e * 4096) :
    runFold data [[(idx, e)]] 2 8192 =
      (.ok [(idx, tail.take len)], sectorStart e * 4096 + sectorCount e * 4096) := by
  obtain ⟨hlen4, htl⟩ := readU32BE_some hread
  have hpos1 : 8192 + (sectorStart e - 2) * 4096 = sectorStart e * 4096 := by omega
  have hspan : sectorEnd e - sectorStart e = sectorCount e := by
    unfold sectorStart sectorEnd sectorCount
    omega
  have hrr : runRange [(idx, e)] = (sectorStart e, sectorEnd e) := by
    simp [runRange, List.getLastD]
  have hDlen : sectorCount e * 4096 ≤ (data.drop (sectorStart e * 4096)).length := by
    rw [List.length_drop]
    omega
  obtain ⟨m, hm⟩ : ∃ m, sectorCount e * 4096 = m + 4 := ⟨sectorCount e * 4096 - 4, by omega⟩
  obtain ⟨b0, b1, b2, b3, rest, hD⟩ :
      ∃ b0 b1 b2 b3 rest, data.drop (sectorStart e * 4096) = b0 :: b1 :: b2 :: b3 :: rest := by
    rcases hE : data.drop (sectorStart e * 4096) with _ | ⟨c0, _ | ⟨c1, _ | ⟨c2, _ | ⟨c3, r⟩⟩⟩⟩ <;>
      rw [hE] at hlen4 <;> simp at hlen4 <;> try omega
    exact ⟨c0, c1, c2, c3, r, rfl⟩
  have htail : tail = rest := by rw [htl, hD]; rfl
  have hmrest : m ≤ rest.length := by
    have h' := hDlen
    rw [hD] at h'
    simp at h'
    omega
  have hbuf : (data.drop (sectorStart e * 4096)).take (sectorCount e * 4096) =
      b0 :: b1 :: b2 :: b3 :: rest.take m := by
    rw [hD, hm]
    simp [List.take_succ_cons]
  have hbuflen : (b0 :: b1 :: b2 :: b3 :: rest.take m).length = sectorCount e * 4096 := by
    simp [List.length_take, hm]
    omega
  have hval : readU32BE (b0 :: b1 :: b2 :: b3 :: rest.take m) =
      some (((b0 * 256 + b1) * 256 + b2) * 256 + b3, rest.take m) := rfl
  have hva : ((b0 * 256 + b1) * 256 + b2) * 256 + b3 = len := by
    have h' : readU32BE (data.drop (sectorStart e * 4096)) =
        some (((b0 * 256 + b1) * 256 + b2) * 256 + b3, rest) := by rw [hD]; rfl
    rw [h'] at hread
    simp only [Option.some.injEq, Prod.mk.injEq] at hread
    exact hread.1
  have hlenle : len ≤ (rest.take m).length := by
    rw [List.length_take]
    omega
  have hslice : sliceRun (b0 :: b1 :: b2 :: b3 :: rest.take m) (sectorStart e) [(idx, e)] =
      .ok [(idx, tail.take len)] := by
    rw [htail]
    simp only [sliceRun, Nat.sub_self, Nat.zero_mul, List.drop_zero, hval,
      if_pos (Nat.zero_le _)]
    rw [hva]
    rw [if_pos hlenle, List.take_take, Nat.min_eq_left (by omega)]
  simp only [runFold, hrr]
  rw [hspan, hpos1, hbuf, hslice]
  simp only [runFold, hbuflen, List.append_nil]

theorem filter_replicate_zero_nil (n : Nat) :
    (List.replicate n (0 : Nat)).filter (fun e => e != 0) = [] := by
  induction n with
  | zero => rfl
  | succ n ih => simp [List.replicate_succ, List.filter_cons, ih]

theorem slotTableWF_pad2 (a b n : Nat) (ha : a ≠ 0) (hb : b ≠ 0)
    (hca : sectorCount a ≠ 0) (hcb : sectorCount b ≠ 0) (hab : disjointRanges a b) :
    slotTableWF (a :: b :: List.replicate n 0) := by
  constructor
  · intro e he
    rcases List.mem_cons.mp he with h | h
    · subst h; intro _; exact hca
    rcases List.mem_cons.mp h with h2 | h2
    · subst h2; intro _; exact hcb
    · intro hne; exact absurd (List.eq_of_mem_replicate h2) hne
  · rw [List.filter_cons, List.filter_cons, filter_replicate_zero_nil]
    simp only [ha, hb, bne_iff_ne, ne_eq, not_false_eq_true, if_true]
    simp [List.pairwise_cons, hab]

theorem sortedEntries_mem_snd {offsets : List Nat} {q : Nat × Nat}
    (hq : q ∈ sortedEntries offsets) : q.2 ∈ offsets := by
  have henum : q ∈ offsets.enum := ((perm_sortedEntries offsets).mem_iff).mp hq
  have hm : q.2 ∈ offsets.enum.map Prod.snd := List.mem_map_of_mem Prod.snd henum
  rwa [List.enum_map_snd] at hm

/-- **C1.** For every well-formed sector table, `for_each_chunk` visits every
non-empty slot exactly once and no empty slot (the visit order is a
permutation of the non-empty slot indices and has no duplicates), the
coalesced positional reads cover sector ranges in non-decreasing disk order,
and whenever the byte-level scan completes without error the callback is
invoked exactly on the visit order — all regardless of the coalescing cap. -/
theorem forEachChunk_visits_nonempty_once (cap : Nat) (offsets : List Nat)
    (hwf : slotTableWF offsets) :
    (visitOrder cap offsets).Perm (nonEmptySlots offsets) ∧
    (visitOrder cap offsets).Nodup ∧
    List.Chain' (fun r s : Nat × Nat => r.2 ≤ s.1) (readRanges cap offsets) ∧
    ∀ (data : List Nat) (out : List (Nat × List Nat)) (finalPos : Nat),
      runFold data (runsOf cap offsets) 2 8192 = (.ok out, finalPos) →
      out.map (fun p => p.1) = visitOrder cap offsets := by
  refine ⟨visitOrder_perm cap offsets, visitOrder_nodup cap offsets,
    readRanges_chain cap offsets hwf, ?_⟩
  intro data out finalPos h
  rw [runFold_ok_map_fst data _ _ _ out finalPos h]
  rfl

/-- Witness for **C1** at a concrete 1024-slot table with two non-empty
slots. -/
theorem forEachChunk_visits_nonempty_once_witness :
    slotTableWF c1Offsets ∧
    ((visitOrder 16 c1Offsets).Perm (nonEmptySlots c1Offsets) ∧
     (visitOrder 16 c1Offsets).Nodup ∧
     List.Chain' (fun r s : Nat × Nat => r.2 ≤ s.1) (readRanges 16 c1Offsets) ∧
     ∀ (data : List Nat) (out : List (Nat × List Nat)) (finalPos : Nat),
       runFold data (runsOf 16 c1Offsets) 2 8192 = (.ok out, finalPos) →
       out.map (fun p => p.1) = visitOrder 16 c1Offsets) :=
  ⟨slotTableWF_pad2 514 3078 1022 (by decide) (by decide) (by decide) (by decide) (by decide),
   forEachChunk_visits_nonempty_once 16 c1Offsets
     (slotTableWF_pad2 514 3078 1022 (by decide) (by decide) (by decide) (by decide) (by decide))⟩

/-- **C5** (amended). The run-building loop of `for_each_chunk` extends the
current run exactly as long as the span from the run's first slot's start
sector to the candidate's end sector **plus the gap between the previous
slot's end and the candidate's start** does not exceed 16; the first slot
failing that combined condition closes the run and starts a new one. -/
theorem run_extension_greedy (offsets : List Nat) : greedyRuns 16 (runsOf 16 offsets) := by
  rw [runsOf_eq_buildRuns_filtered]
  exact buildRuns_greedy_aux 16 _ _ le_rfl
    (fun q hq => by simpa using (List.mem_filter.mp hq).2)

/-- Counterexample to **C5** as stated: slots `[2,4)` and `[12,18)` give a
span of `18 - 2 = 16 ≤ 16` from the run start to the candidate's end, so by
the claim the candidate would join the run; the code closes the run (two
separate reads) because it also adds the 8-sector gap (`16 + 8 > 16`). -/
theorem run_extension_span_cex :
    slotTableWF c5Offsets ∧
    sectorEnd 3078 - sectorStart 514 ≤ 16 ∧
    runsOf 16 c5Offsets = [[(0, 514)], [(1, 3078)]] := by
  refine ⟨slotTableWF_pad2 514 3078 1022 (by decide) (by decide) (by decide) (by decide)
    (by decide), by decide, by decide⟩

/-- **C4** (amended).  (a) If the non-empty slots are contiguous **and** the
total payload span is at most the 16-sector cap, `for_each_chunk` issues
exactly one positional read covering the whole payload region; without the
span bound the cap splits even contiguous slots into several reads.  (b) For
a table with exactly one non-empty slot, exactly one read is issued and the
callback receives exactly that slot's framed bytes (the `len` bytes following
its 4-byte length prefix). -/
theorem contiguous_capped_single_read (offsets : List Nat) :
    (∀ (p : Nat × Nat) (t : List (Nat × Nat)),
      (sortedEntries offsets).filter (fun q => q.2 != 0) = p :: t →
      List.Chain' (fun a b : Nat × Nat => sectorStart b.2 = sectorEnd a.2) (p :: t) →
      (runRange (p :: t)).2 - (runRange (p :: t)).1 ≤ 16 →
      readRanges 16 offsets = [runRange (p :: t)]) ∧
    (∀ (data : List Nat) (idx e len : Nat) (tail : List Nat),
      (sortedEntries offsets).filter (fun q => q.2 != 0) = [(idx, e)] →
      2 ≤ sectorStart e → 1 ≤ sectorCount e →
      (sectorStart e + sectorCount e) * 4096 ≤ data.length →
      readU32BE (data.drop (sectorStart e * 4096)) = some (len, tail) →
      len + 4 ≤ sectorCount e * 4096 →
      forEachChunkBytes data offsets 16 = .ok [(idx, tail.take len)] ∧
      readRanges 16 offsets = [(sectorStart e, sectorEnd e)]) := by
  constructor
  · intro p t hl hcontig hspan
    exact oneRead_of_contig offsets p t hl hcontig hspan
  · intro data idx e len tail hl hs hc hdata hread hfit
    have he : ((idx, e) : Nat × Nat).2 ≠ 0 := by
      unfold sectorCount at hc
      simp
      omega
    have hruns : runsOf 16 offsets = [[(idx, e)]] := by
      rw [runsOf_eq_buildRuns_filtered, hl, buildRuns_cons_ne 16 (idx, e) [] he]
      rw [show extendRun 16 (sectorStart ((idx, e) : Nat × Nat).2)
        (sectorEnd ((idx, e) : Nat × Nat).2) [] = ([], []) from rfl]
      rw [buildRuns_nil]
    constructor
    · unfold forEachChunkBytes
      rw [hruns, runFold_single data idx e len tail hs hc hdata hread hfit]
    · unfold readRanges
      rw [hruns]
      simp [runRange, List.getLastD]

/-- Counterexample to **C4** as stated: slots `[2,10)` and `[10,19)` are
contiguous (the second starts exactly where the first ends, no gap), yet the
code issues two positional reads because the 17-sector total span exceeds the
16-sector cap. -/
theorem contiguous_single_read_cex :
    slotTableWF c4CexOffsets ∧
    (sortedEntries c4CexOffsets).filter (fun q => q.2 != 0) = [(0, 520), (1, 2569)] ∧
    sectorStart 2569 = sectorEnd 520 ∧
    readRanges 16 c4CexOffsets = [(2, 10), (10, 19)] := by
  refine ⟨slotTableWF_pad2 520 2569 1022 (by decide) (by decide) (by decide) (by decide)
    (by decide), by decide, by decide, by decide⟩

/-- Witness for **C4**: part (a) at a table with two contiguous slots
`[2,10)` and `[10,16)` spanning 14 ≤ 16 sectors (a single read), part (b) at
a container with one non-empty slot (slot 1, sector range `[2,3)`) whose
framed record is 5 bytes long. -/
theorem contiguous_capped_single_read_witness :
    readRanges 16 c4OkOffsets = [(2, 16)] ∧
    forEachChunkBytes c4Data c4Offsets 16 =
      .ok [(1, (9 :: 9 :: 9 :: 9 :: 9 :: List.replicate 4087 0).take 5)] ∧
    readRanges 16 c4Offsets = [(2, 3)] := by
  have hla : (sortedEntries c4OkOffsets).filter (fun q => q.2 != 0) =
      [(0, 520), (1, 2566)] := by decide
  have ha := (contiguous_capped_single_read c4OkOffsets).1 (0, 520) [(1, 2566)] hla
    (List.chain'_cons.mpr ⟨by decide, List.chain'_singleton _⟩) (by decide)
  have hl : (sortedEntries c4Offsets).filter (fun q => q.2 != 0) = [(1, 513)] := by decide
  have hdlen : c4Data.length = 12288 := by
    simp only [c4Data, List.length_append, List.length_replicate, List.length_cons]
  have hdata : (sectorStart 513 + sectorCount 513) * 4096 ≤ c4Data.length := by
    rw [hdlen]
    decide
  have hread : readU32BE (c4Data.drop (sectorStart 513 * 4096)) =
      some (5, 9 :: 9 :: 9 :: 9 :: 9 :: List.replicate 4087 0) := by
    simp only [c4Data]
    rw [show sectorStart 513 * 4096 = (List.replicate 8192 (0 : Nat)).length by
      simp only [List.length_replicate, sectorStart]]
    rw [List.drop_left]
    rfl
  have h := (contiguous_capped_single_read c4Offsets).2 c4Data 1 513 5
    (9 :: 9 :: 9 :: 9 :: 9 :: List.replicate 4087 0) hl (by decide) (by decide)
    hdata hread (by decide)
  refine ⟨?_, h.1, by rw [h.2]; rfl⟩
  rw [ha]
  decide

/-- **C6** (amended). A short region-file header (fewer than the 8192 bytes
`RegionFile::new` reads with `read_exact`) is a per-file recoverable
condition, not a fatal one: `RegionFile::new` fails with `UnexpectedEof`,
which `scan_region_file` catches, logs, and converts to `Ok` — the file is
skipped (no chunks emitted) and the scan continues with the next file. -/
theorem short_header_skipped (data : List Nat) (hshort : data.length < 8192) :
    RegionFile.new data = .error .unexpectedEof ∧ scanRegionFile data = .ok [] := by
  have h1 : RegionFile.new data = .error .unexpectedEof := by
    unfold RegionFile.new
    rw [if_pos hshort]
  refine ⟨h1, ?_⟩
  unfold scanRegionFile
  rw [h1]

/-- Witness for **C6** at a 100-byte file. -/
theorem short_header_skipped_witness :
    RegionFile.new (List.replicate 100 0) = .error .unexpectedEof ∧
    scanRegionFile (List.replicate 100 0) = .ok [] :=
  short_header_skipped (List.replicate 100 0) (by decide)

/-- Counterexample to **C6** as stated: a 300-byte file is a malformed
container (header shorter than 8192 bytes), yet `scan_region_file` returns
success (`Ok`, no chunks) after logging — the run is **not** aborted, the
file is skipped as a per-file condition. -/
theorem short_header_fatal_cex :
    RegionFile.new (List.replicate 300 0) = .error .unexpectedEof ∧
    scanRegionFile (List.replicate 300 0) = .ok [] := by
  constructor
  · unfold RegionFile.new
    rw [if_pos (by decide)]
  · unfold scanRegionFile RegionFile.new
    rw [if_pos (by decide)]

/-- **C2** (amended). When the container file ends while a coalesced run is
being read (here: the file holds only the 8192-byte header and the table
promises payload sectors), `for_each_chunk` fails with an unexpected-EOF
error that `scan_region_file` does **not** catch — the error propagates
through `?` and aborts the scan of all remaining files.  Only a truncated
*header* is logged and skipped (see the short-header theorem). -/
theorem truncated_run_aborts_scan (data : List Nat) (p : Nat × Nat) (t : List (Nat × Nat))
    (hlen : data.length = 8192)
    (hl : (sortedEntries (parseOffsets 1024 data)).filter (fun q => q.2 != 0) = p :: t)
    (hge : 2 ≤ sectorStart p.2) :
    scanRegionFile data = .error .unexpectedEof :=
  scanRegionFile_trunc data hlen p t hl hge

/-- Witness for **C2**: a header-only file whose slot 0 promises one sector
at sector 2. -/
theorem truncated_run_aborts_scan_witness :
    scanRegionFile c2Data = .error .unexpectedEof :=
  truncated_run_aborts_scan c2Data (0, 513) []
    (by simp only [c2Data, List.length_cons, List.length_replicate])
    (by decide) (by decide)

/-- Counterexample to **C2** as stated: this container file ends mid-read
(its table promises sectors `[2,4)` for slot 0 but the file holds only the
header), and the scan does **not** skip the file and continue — the model
returns the error that `scan_region_file` propagates with `?`, aborting the
whole run. -/
theorem truncated_run_recovery_cex :
    scanRegionFile c2CexData = .error .unexpectedEof :=
  scanRegionFile_trunc c2CexData
    (by simp only [c2CexData, List.length_cons, List.length_replicate])
    (0, 514) [] (by decide) (by decide)

/-- **C10** (amended). `for_each_chunk` never modifies the stored sector
table nor the file bytes (it sorts a private copy of the table), but it does
advance the file cursor past the last coalesced read and never rewinds it.
Two successive invocations therefore coincide when the table has no
non-empty slot (no read, no seek); in general the second call starts from the
moved cursor and reads different bytes (see the counterexample). -/
theorem forEachChunk_offsets_frame (rf : RegionFile) :
    ((rf.forEachChunk).2).offsets = rf.offsets ∧
    ((rf.forEachChunk).2).data = rf.data ∧
    ((∀ e ∈ rf.offsets, e = 0) → rf.forEachChunk = (.ok [], rf)) := by
  refine ⟨rfl, rfl, ?_⟩
  intro hz
  have hruns : runsOf 16 rf.offsets = [] := by
    unfold runsOf
    exact buildRuns_all_zero_aux 16 (sortedEntries rf.offsets).length _ le_rfl
      (fun p hp => hz p.2 (sortedEntries_mem_snd hp))
  unfold RegionFile.forEachChunk
  rw [hruns]
  rfl

/-- Witness for **C10** at an all-empty 1024-slot table. -/
theorem forEachChunk_offsets_frame_witness :
    ((c10ZeroFile.forEachChunk).2).offsets = c10ZeroFile.offsets ∧
    ((c10ZeroFile.forEachChunk).2).data = c10ZeroFile.data ∧
    c10ZeroFile.forEachChunk = (.ok [], c10ZeroFile) :=
  ⟨(forEachChunk_offsets_frame c10ZeroFile).1,
   (forEachChunk_offsets_frame c10ZeroFile).2.1,
   (forEachChunk_offsets_frame c10ZeroFile).2.2
     (fun e he => List.eq_of_mem_replicate he)⟩

/-- Counterexample to **C10** as stated: on this container the first
`for_each_chunk` call yields slot 0's framed record and leaves the cursor at
byte 12288, so a second call on the same `RegionFile` — whose relative seeks
assume the cursor still sits at the end of the header — reads past the end
of the file and fails instead of repeating the same `(slot, bytes)`
sequence. -/
theorem forEachChunk_rerun_cex :
    (c10File.forEachChunk).1 = .ok [(0, [7, 7, 7, 7, 7])] ∧
    ((c10File.forEachChunk).2).pos = 12288 ∧
    (((c10File.forEachChunk).2).forEachChunk).1 = .error .unexpectedEof := by
  have hruns : runsOf 16 c10Offsets = [[(0, 513)]] := by decide
  have hdlen : c10Data.length = 12288 := by
    simp only [c10Data, List.length_append, List.length_replicate, List.length_cons]
  have hread : readU32BE (c10Data.drop (sectorStart 513 * 4096)) =
      some (5, 7 :: 7 :: 7 :: 7 :: 7 :: List.replicate 4087 0) := by
    simp only [c10Data]
    rw [show sectorStart 513 * 4096 = (List.replicate 8192 (0 : Nat)).length by
      simp only [List.length_replicate, sectorStart]]
    rw [List.drop_left]
    rfl
  have h1 : runFold c10Data [[(0, 513)]] 2 8192 =
      (.ok [(0, (7 :: 7 :: 7 :: 7 :: 7 :: List.replicate 4087 0).take 5)], 12288) := by
    rw [runFold_single c10Data 0 513 5 (7 :: 7 :: 7 :: 7 :: 7 :: List.replicate 4087 0)
      (by decide) (by decide) (by rw [hdlen]; decide) hread (by decide)]
    rfl
  have hfst : c10File.forEachChunk =
      (.ok [(0, [7, 7, 7, 7, 7])], ⟨c10Data, 12288, c10Offsets⟩) := by
    have hdef : c10File.forEachChunk =
        ((runFold c10Data (runsOf 16 c10Offsets) 2 8192).1,
         ⟨c10Data, (runFold c10Data (runsOf 16 c10Offsets) 2 8192).2, c10Offsets⟩) := rfl
    rw [hdef, hruns, h1]
    rfl
  have h2 : runFold c10Data [[(0, 513)]] 2 12288 = (.error .unexpectedEof, 12288) := by
    simp only [runFold]
    rw [show runRange [(0, 513)] = (2, 3) from by decide]
    rw [show (12288 : Nat) + ((2, 3).1 - 2) * 4096 = 12288 from by decide]
    rw [show c10Data.drop 12288 = [] from List.drop_eq_nil_of_le (by rw [hdlen])]
    simp [sliceRun, readU32BE]
    norm_num [sectorStart]
  have hsnd : (⟨c10Data, 12288, c10Offsets⟩ : RegionFile).forEachChunk =
      ((runFold c10Data (runsOf 16 c10Offsets) 2 12288).1,
       ⟨c10Data, (runFold c10Data (runsOf 16 c10Offsets) 2 12288).2, c10Offsets⟩) := rfl
  refine ⟨by rw [hfst], by rw [hfst], ?_⟩
  rw [hfst]
  show ((⟨c10Data, 12288, c10Offsets⟩ : RegionFile).forEachChunk).1 = .error .unexpectedEof
  rw [hsnd, hruns, h2]

/-- **C7.** `read_chunk` reads the first byte of a slot buffer as the codec
discriminant and dispatches: 0 = uncompressed, 1 = gzip, 2 = zlib.  For every
other first byte `t` it returns the `InvalidCompressionType t` error — whose
display string is `"invalid compression type t"` — without invoking the tree
decoder (the result is identical for any two decoders), and for the three
valid codecs it propagates the tree decoder's successes and failures. -/
theorem read_chunk_codec_dispatch
    (readNbt readNbt2 : Flavor → List Nat → Except String Nbt)
    (t : Nat) (rest : List Nat) :
    (3 ≤ t →
      read_chunk readNbt (t :: rest) = .error (.invalidCompressionType t) ∧
      read_chunk readNbt (t :: rest) = read_chunk readNbt2 (t :: rest)) ∧
    ((ChunkError.invalidCompressionType t).message =
      "invalid compression type " ++ toString t) ∧
    (∀ v : Nbt,
      (readNbt .uncompressed rest = .ok v → read_chunk readNbt (0 :: rest) = .ok v) ∧
      (readNbt .gzCompressed rest = .ok v → read_chunk readNbt (1 :: rest) = .ok v) ∧
      (readNbt .zlibCompressed rest = .ok v → read_chunk readNbt (2 :: rest) = .ok v)) ∧
    (∀ err : String,
      (readNbt .uncompressed rest = .error err →
        read_chunk readNbt (0 :: rest) = .error (.nbtIoError err)) ∧
      (readNbt .gzCompressed rest = .error err →
        read_chunk readNbt (1 :: rest) = .error (.nbtIoError err)) ∧
      (readNbt .zlibCompressed rest = .error err →
        read_chunk readNbt (2 :: rest) = .error (.nbtIoError err))) := by
  refine ⟨?_, rfl, ?_, ?_⟩
  · intro ht
    obtain ⟨n, rfl⟩ : ∃ n, t = n + 3 := ⟨t - 3, by omega⟩
    exact ⟨rfl, rfl⟩
  · intro v
    refine ⟨?_, ?_, ?_⟩ <;> intro h <;> simp [read_chunk, h]
  · intro err
    refine ⟨?_, ?_, ?_⟩ <;> intro h <;> simp [read_chunk, h]

/-- Witness for **C7** at concrete decoders and buffers. -/
theorem read_chunk_codec_dispatch_witness :
    read_chunk (fun _ _ => .ok (.compound [])) [3] = .error (.invalidCompressionType 3) ∧
    read_chunk (fun _ _ => .ok (.compound [])) [0] = .ok (.compound []) ∧
    read_chunk (fun _ _ => .error "malformed tree") [1] =
      .error (.nbtIoError "malformed tree") := by
  refine ⟨((read_chunk_codec_dispatch (fun _ _ => .ok (.compound []))
      (fun _ _ => .error "x") 3 []).1 (by decide)).1, ?_, ?_⟩
  · exact ((read_chunk_codec_dispatch (fun _ _ => .ok (.compound []))
      (fun _ _ => .error "x") 0 []).2.2.1 (.compound [])).1 rfl
  · exact ((read_chunk_codec_dispatch (fun _ _ => .error "malformed tree")
      (fun _ _ => .error "x") 1 []).2.2.2 "malformed tree").2.1 rfl

/-- **C8** (amended).  With chunk radius `R ≥ 1`, a chunk is sent to the
pipeline iff both its chunk coordinates lie in `[-R, R - 1]` — equivalently
iff the chunk's center lies within Chebyshev distance `R` of the origin; in
particular the chunk `(R, 0)` at grid Chebyshev distance exactly `R` is
excluded (see the counterexample).  Every chunk at grid Chebyshev distance
`R + 1` is excluded, and the per-region-file clip never skips a region
containing a chunk that the per-chunk filter would send. -/
theorem radius_filter_boundary (chunkRadius : Nat) (regionX regionZ : Int) (index : Nat)
    (hR : 1 ≤ chunkRadius) (hidx : index < 1024) :
    (chunkSent chunkRadius regionX regionZ index = true ↔
      (-(chunkRadius : Int) ≤ chunkXOf regionX index ∧
       chunkXOf regionX index < (chunkRadius : Int) ∧
       -(chunkRadius : Int) ≤ chunkZOf regionZ index ∧
       chunkZOf regionZ index < (chunkRadius : Int))) ∧
    (max (chunkXOf regionX index).natAbs (chunkZOf regionZ index).natAbs
        = chunkRadius + 1 →
      chunkSent chunkRadius regionX regionZ index = false) ∧
    (chunkSent chunkRadius regionX regionZ index = true →
      regionVisited chunkRadius regionX regionZ = true) := by
  have hsent : chunkSent chunkRadius regionX regionZ index = true ↔
      (2 * chunkXOf regionX index + 1).natAbs ≤ 2 * chunkRadius ∧
      (2 * chunkZOf regionZ index + 1).natAbs ≤ 2 * chunkRadius := by
    unfold chunkSent
    rw [Bool.not_eq_true', decide_eq_false_iff_not, not_lt]
    exact Nat.max_le
  refine ⟨?_, ?_, ?_⟩
  · rw [hsent]
    omega
  · intro hmax
    apply Bool.eq_false_iff.mpr
    intro hTrue
    rw [hsent] at hTrue
    rcases max_choice (chunkXOf regionX index).natAbs (chunkZOf regionZ index).natAbs
      with hc | hc <;> rw [hc] at hmax <;> omega
  · intro hTrue
    rw [hsent] at hTrue
    have htd : Int.tdiv ((chunkRadius : Int) - 1) 32 = ((chunkRadius : Int) - 1) / 32 :=
      Int.tdiv_eq_ediv (by omega) (by omega)
    unfold regionVisited
    rw [htd, Bool.not_eq_true', decide_eq_false_iff_not]
    unfold chunkXOf chunkZOf at hTrue
    push_neg
    omega

/-- Counterexample to **C8** as stated: with radius `R = 1`, the chunk
`(1, 0)` lies at Chebyshev distance exactly `R` from the origin and its
region is visited, yet it is **not** sent to the pipeline
(`max(|2·1+1|, |2·0+1|) = 3 > 2 = 2R`). -/
theorem radius_filter_cex :
    max (chunkXOf 0 1).natAbs (chunkZOf 0 1).natAbs = 1 ∧
    regionVisited 1 0 0 = true ∧
    chunkSent 1 0 0 1 = false :=
  ⟨by decide, by decide, by decide⟩

/-- Witness for **C8**: with radius 1 the chunk `(0, 0)` is sent and its
region is visited. -/
theorem radius_filter_boundary_witness :
    chunkSent 1 0 0 0 = true ∧ regionVisited 1 0 0 = true := by
  have h := radius_filter_boundary 1 0 0 0 (le_refl 1) (by decide)
  have hs : chunkSent 1 0 0 0 = true :=
    h.1.mpr ⟨by decide, by decide, by decide, by decide⟩
  exact ⟨hs, h.2.2 hs⟩

/-- Per-entity handling in the worker's `match` (helper for the pipeline
theorem below): an entity whose id passes the entity filter but is not one
of the five known ids hits the `_ => panic!()` arm (`none`, never a silent
skip); for the five known ids the `Item` / `Items` field is optional. -/
theorem processEntity_unknown_id (entityIds : List String) (entity : Nbt) (id : String)
    (hid : entity.getField "id" = some (.string id))
    (hin : entityIds.contains id = true) :
    (id ∉ knownEntityIds → processEntity entityIds entity = none) ∧
    (id ∈ knownEntityIds → entity.getField "Item" = none →
      entity.getField "Items" = none → processEntity entityIds entity = some []) := by
  constructor
  · intro hnot
    have h5 : ¬(id = "minecraft:item" ∨ id = "minecraft:item_frame" ∨
        id = "minecraft:glow_item_frame") ∧
        ¬(id = "minecraft:chest_minecart" ∨ id = "minecraft:hopper_minecart") := by
      simp only [knownEntityIds, List.mem_cons, List.not_mem_nil, or_false] at hnot
      tauto
    unfold processEntity
    simp only [hid, hin, if_true]
    rw [if_neg h5.1, if_neg h5.2]
  · intro hmem hItem hItems
    unfold processEntity
    simp only [hid, hin, if_true]
    simp only [knownEntityIds, List.mem_cons, List.not_mem_nil, or_false] at hmem
    rcases hmem with h | h | h | h | h <;> subst h
    · rw [if_pos (Or.inl rfl), hItem]
    · rw [if_pos (Or.inr (Or.inl rfl)), hItem]
    · rw [if_pos (Or.inr (Or.inr rfl)), hItem]
    · rw [if_neg (by decide), if_pos (Or.inl rfl), hItems]
    · rw [if_neg (by decide), if_pos (Or.inr rfl), hItems]

theorem mapM_aux_none_of_mem {α β : Type} (f : α → Option β) :
    ∀ (l : List α) (x : α), x ∈ l → f x = none → l.mapM' f = none := by
  intro l
  induction l with
  | nil => intro x hx; simp at hx
  | cons a t ih =>
    intro x hx hfx
    rcases List.mem_cons.mp hx with h | h
    · subst h
      simp [List.mapM', hfx]
    · rcases hfa : f a with _ | b
      · simp [List.mapM', hfa]
      · simp [List.mapM', hfa, ih x h hfx]

theorem mapM_none_of_mem {α β : Type} (f : α → Option β) (l : List α) (x : α)
    (hx : x ∈ l) (hfx : f x = none) : l.mapM f = none := by
  rw [← List.mapM'_eq_mapM]
  exact mapM_aux_none_of_mem f l x hx hfx

theorem pipelineGo_completed (readNbt : Flavor → List Nat → Except String Nbt)
    (entityIds blockEntityIds : List String) :
    ∀ (chunks : List (Bool × List Nat)) (alive : Nat) (acc : List Nbt),
      chunks.countP
        (fun c => (workerChunk readNbt entityIds blockEntityIds c.1 c.2).isNone) < alive →
      pipelineGo readNbt entityIds blockEntityIds chunks alive acc =
        .completed (acc ++ (chunks.filterMap
          (fun c => workerChunk readNbt entityIds blockEntityIds c.1 c.2)).flatten) := by
  intro chunks
  induction chunks with
  | nil =>
    intro alive acc _
    simp [pipelineGo]
  | cons c rest ih =>
    intro alive acc h
    have halive : ¬ alive = 0 := by
      intro h0
      rw [h0] at h
      omega
    rw [List.countP_cons] at h
    simp only [pipelineGo, if_neg halive]
    rcases hw : workerChunk readNbt entityIds blockEntityIds c.1 c.2 with _ | recs
    · simp only [hw, Option.isNone_none, if_true] at h
      rw [ih (alive - 1) acc (by omega)]
      have hfm : (c :: rest).filterMap
          (fun c => workerChunk readNbt entityIds blockEntityIds c.1 c.2) =
          rest.filterMap (fun c => workerChunk readNbt entityIds blockEntityIds c.1 c.2) := by
        simp only [List.filterMap_cons, hw]
      rw [hfm]
    · have h' : rest.countP
          (fun c => (workerChunk readNbt entityIds blockEntityIds c.1 c.2).isNone) < alive := by
        omega
      have hfm : (c :: rest).filterMap
          (fun c => workerChunk readNbt entityIds blockEntityIds c.1 c.2) =
          recs :: rest.filterMap
            (fun c => workerChunk readNbt entityIds blockEntityIds c.1 c.2) := by
        simp only [List.filterMap_cons, hw]
      show pipelineGo readNbt entityIds blockEntityIds rest alive (acc ++ recs) =
        PipelineResult.completed (acc ++ ((c :: rest).filterMap
          (fun c => workerChunk readNbt entityIds blockEntityIds c.1 c.2)).flatten)
      rw [ih alive (acc ++ recs) h', hfm]
      simp [List.append_assoc]

/-- Counterexample to **C9** as stated: the filtered `minecraft:armor_stand`
entity makes the worker processing its chunk panic (no silent skip) — but
the run does **not** abort: the workers are detached spawned threads, so one
worker's panic leaves the other three receiving, the producer's sends keep
succeeding, the good chunk's record is still extracted and printed, the
printer joins cleanly and `scan_dimension` returns `Ok` (process exit code
0), contradicting the claim's "the run aborts". -/
theorem entity_policy_abort_cex :
    processEntity c9Ids c9BadEntity = none ∧
    workerChunk c9Decoder c9Ids [] true [0, 1] = none ∧
    pipelineScan c9Decoder c9Ids [] [(true, [0, 1]), (true, [0, 2])] =
      .completed [c9ItemRecord] :=
  ⟨rfl, rfl, rfl⟩

/-- **C9** (amended).  An entity whose id passes the entity filter but is not
one of the five known ids hits `_ => panic!()`: the worker panics rather
than silently skipping the entity, and any chunk whose `Entities` list
contains such an entity kills the worker processing it.  The run, however,
does **not** abort: the workers are detached threads, so while at least one
worker survives every queued chunk is handled and every send succeeds, the
printer joins cleanly and `scan_dimension` returns `Ok` with the surviving
records (the panicking workers' records are silently lost and the exit code
stays 0); only once every worker has died does the producer's
`send(..).unwrap()` panic and abort the run.  For the five known ids the
`Item` / `Items` field is optional: absence yields no record and no error. -/
theorem entity_policy_panic_no_abort
    (readNbt : Flavor → List Nat → Except String Nbt)
    (entityIds blockEntityIds : List String) (entity : Nbt) (id : String)
    (hid : entity.getField "id" = some (.string id))
    (hin : entityIds.contains id = true) :
    (id ∉ knownEntityIds → processEntity entityIds entity = none) ∧
    (id ∈ knownEntityIds → entity.getField "Item" = none →
      entity.getField "Items" = none → processEntity entityIds entity = some []) ∧
    (id ∉ knownEntityIds → ∀ (chunk : Nbt) (es : List Nbt),
      chunk.getField "Entities" = some (.list es) → entity ∈ es →
      processChunk entityIds blockEntityIds true chunk = none) ∧
    (∀ (chunks : List (Bool × List Nat)) (alive : Nat) (acc : List Nbt),
      chunks.countP
        (fun c => (workerChunk readNbt entityIds blockEntityIds c.1 c.2).isNone) < alive →
      pipelineGo readNbt entityIds blockEntityIds chunks alive acc =
        .completed (acc ++ (chunks.filterMap
          (fun c => workerChunk readNbt entityIds blockEntityIds c.1 c.2)).flatten)) ∧
    (∀ (c : Bool × List Nat) (rest : List (Bool × List Nat)) (acc : List Nbt),
      pipelineGo readNbt entityIds blockEntityIds (c :: rest) 0 acc = .producerPanic) := by
  have hpanic := processEntity_unknown_id entityIds entity id hid hin
  refine ⟨hpanic.1, hpanic.2, ?_, pipelineGo_completed readNbt entityIds blockEntityIds, ?_⟩
  · intro hnot chunk es hents hmem
    obtain ⟨fs, rfl⟩ : ∃ fs, entity = Nbt.compound fs := by
      cases entity with
      | compound fs => exact ⟨fs, rfl⟩
      | byte n => simp [Nbt.getField] at hid
      | string str => simp [Nbt.getField] at hid
      | list l => simp [Nbt.getField] at hid
    have hf : (Nbt.asCompoundNode (Nbt.compound fs)).bind (processEntity entityIds) = none := by
      simp [Nbt.asCompoundNode, hpanic.1 hnot]
    unfold processChunk
    rw [if_pos rfl]
    simp only [hents]
    rw [mapM_none_of_mem _ es (Nbt.compound fs) hmem hf]
    rfl
  · intro c rest acc
    simp [pipelineGo]

/-- Witness for **C9** at concrete inputs: the unknown filtered id panics
the worker and its chunk, a known id with an absent field yields no record
and no error, one poisoned chunk among two still lets the 4-worker pipeline
complete, and a pending chunk with zero live workers makes the producer
panic. -/
theorem entity_policy_panic_no_abort_witness :
    processEntity c9Ids c9BadEntity = none ∧
    processEntity ENTITY_IDS (.compound [("id", .string "minecraft:item")]) = some [] ∧
    processChunk c9Ids [] true c9BadChunk = none ∧
    pipelineGo c9Decoder c9Ids [] [(true, [0, 1]), (true, [0, 2])] 4 [] =
      .completed ([] ++ ([(true, [0, 1]), (true, [0, 2])].filterMap
        (fun c => workerChunk c9Decoder c9Ids [] c.1 c.2)).flatten) ∧
    pipelineGo c9Decoder c9Ids [] [(true, [0, 1])] 0 [] = .producerPanic := by
  have h1 := entity_policy_panic_no_abort c9Decoder c9Ids [] c9BadEntity
    "minecraft:armor_stand" rfl rfl
  have h2 := entity_policy_panic_no_abort c9Decoder ENTITY_IDS []
    (.compound [("id", .string "minecraft:item")]) "minecraft:item" rfl rfl
  refine ⟨h1.1 (by decide), h2.2.1 (by decide) rfl rfl, ?_, ?_, ?_⟩
  · exact h1.2.2.1 (by decide) c9BadChunk [c9BadEntity] rfl (List.mem_cons_self _ _)
  · exact h1.2.2.2.1 [(true, [0, 1]), (true, [0, 2])] 4 [] (by decide)
  · exact h1.2.2.2.2 (true, [0, 1]) [] []

/-- Counterexample to **C3** as stated: this block entity's id is in the
default filter set, ends with `shulker_box`, and has a populated
`tag.BlockEntityTag.Items` list of 3 items, yet the extraction in
`dump-items.rs` yields 0 records (not 3): the block-entity path only reads
the outer `Items` key, which is absent, and has no shulker special case. -/
theorem shulker_nested_extraction_cex :
    BLOCK_ENTITY_IDS.contains "minecraft:shulker_box" = true ∧
    c3BlockEntity.getField "id" = some (.string "minecraft:shulker_box") ∧
    c3BlockEntity.getField "Items" = none ∧
    (c3BlockEntity.getField "tag").isSome = true ∧
    processBlockEntity BLOCK_ENTITY_IDS c3BlockEntity = some [] :=
  ⟨rfl, rfl, rfl, rfl, rfl⟩

/-- **C3** (amended).  The block-entity extraction of `dump-items.rs` yields
exactly the elements of the outer `Items` list and nothing else — a filtered
block entity without an `Items` key yields no records regardless of nested
content.  The shulker-box nesting is handled downstream by `count-items.rs`:
an item record whose id ends with `shulker_box` and that carries a
`tag.BlockEntityTag.Items` list contributes its own `(id, Count)` entry plus
one entry per element of that nested list. -/
theorem shulker_nested_counted_downstream (blockEntityIds : List String) :
    (∀ (be : Nbt) (id : String),
      be.getField "id" = some (.string id) →
      be.getField "Items" = none →
      processBlockEntity blockEntityIds be = some []) ∧
    (∀ (be : Nbt) (id : String) (outs : List Nbt),
      be.getField "id" = some (.string id) →
      blockEntityIds.contains id = true →
      be.getField "Items" = some (.list outs) →
      outs.mapM Nbt.asCompoundNode = some outs →
      processBlockEntity blockEntityIds be = some outs) ∧
    (∀ (item : Nbt) (itemId : String) (c : Nat)
      (tagFields betFields : List (String × Nbt)) (items : List Nbt)
      (nested : List (String × Nat)),
      item.getField "id" = some (.string itemId) →
      item.getField "Count" = some (.byte c) →
      "shulker_box".data.isSuffixOf itemId.data = true →
      item.getField "tag" = some (.compound tagFields) →
      (Nbt.compound tagFields).getField "BlockEntityTag" = some (.compound betFields) →
      (Nbt.compound betFields).getField "Items" = some (.list items) →
      items.mapM (fun n => (Nbt.asCompoundNode n).bind itemEntry) = some nested →
      countLine item = some ((itemId, c) :: nested)) := by
  refine ⟨?_, ?_, ?_⟩
  · intro be id hid hItems
    unfold processBlockEntity
    simp only [hid]
    rw [if_neg (by simp [hItems])]
  · intro be id outs hid hin hItems hmap
    unfold processBlockEntity
    simp only [hid]
    rw [if_pos (by rw [hin, hItems]; rfl)]
    simp only [hItems, hmap]
  · intro item itemId c tagFields betFields items nested hid hc hsuf htag hbet hItems hmap
    unfold countLine
    simp only [hid, hc, hsuf, if_true, htag, hbet, hItems, hmap]

/-- Witness for **C3**: a filtered chest block entity with no `Items` key
yields no records, and a shulker-box item record with 3 nested items
contributes its own entry plus the 3 nested entries in `count-items`. -/
theorem shulker_nested_counted_downstream_witness :
    processBlockEntity BLOCK_ENTITY_IDS
      (.compound [("id", .string "minecraft:chest")]) = some [] ∧
    countLine c3ShulkerItem =
      some [("minecraft:shulker_box", 1), ("minecraft:diamond", 1),
            ("minecraft:diamond", 2), ("minecraft:diamond", 3)] := by
  constructor
  · exact (shulker_nested_counted_downstream BLOCK_ENTITY_IDS).1 _ "minecraft:chest" rfl rfl
  · exact (shulker_nested_counted_downstream BLOCK_ENTITY_IDS).2.2 c3ShulkerItem
      "minecraft:shulker_box" 1 _ _ _ _ rfl rfl (by decide) rfl rfl rfl rfl
